import Mathlib

/-!
# Verification of the AI-Interviewer session-orchestration engine

Shallow embedding, in Lean 4, of the core of the `AI-InterviewerMVP`
repository (`src/ai_interviewer/`): the flow planner (`interview_flow.py`),
the transcript ledger (`transcript.py`), the audio recorder/bridge
(`audio.py`), the LLM client's configuration checks (`llm.py`) and the
session controller (`controller.py`).  External collaborators (Playwright,
sounddevice, faster-whisper, the LLM providers' network calls, the file
system) are modelled by an explicit environment that fixes the outcome of
every external call; everything the repository itself computes is embedded
as executable Lean definitions.
-/

namespace AIInterviewer

/-! ## Characters and Python-style string primitives

`pyStripL` models Python's `str.strip()` (restricted to the four JSON
whitespace characters, the only ones that occur in this development), and
`splitFenceAux` models `str.split("\x60\x60\x60")` as used by
`InterviewFlow._extract_json_block`.
-/

/-- The backtick character (used by the markdown code-fence `\x60\x60\x60`). -/
def backtick : Char := Char.ofNat 96

/-- The double-quote character. -/
def dquote : Char := Char.ofNat 34

/-- The opening-brace character. -/
def lbrace : Char := Char.ofNat 123

/-- The closing-brace character. -/
def rbrace : Char := Char.ofNat 125

/-- JSON/Python whitespace: space, tab, newline, carriage return. -/
def isWsB (c : Char) : Bool :=
  c == ' ' || c == '\t' || c == '\n' || c == '\r'

/-- Python `str.strip()` on a character list. -/
def pyStripL (l : List Char) : List Char :=
  ((l.dropWhile isWsB).reverse.dropWhile isWsB).reverse

/-- Python `str.strip()`. -/
def pyStripS (s : String) : String :=
  String.mk (pyStripL s.data)

/-- Python `"\n".join(entries)`. -/
def joinNL (l : List String) : String :=
  String.intercalate "\n" l

/-- Python `text.split("\x60\x60\x60")`: split on non-overlapping
occurrences of the triple-backtick fence, scanning left to right.
`acc` holds the (reversed) characters of the part being accumulated. -/
def splitFenceAux (acc : List Char) : List Char → List (List Char)
  | c1 :: c2 :: c3 :: rest =>
    if c1 = backtick ∧ c2 = backtick ∧ c3 = backtick then
      acc.reverse :: splitFenceAux [] rest
    else
      splitFenceAux (c1 :: acc) (c2 :: c3 :: rest)
  | c :: rest => splitFenceAux (c :: acc) rest
  | [] => [acc.reverse]
  termination_by l => l.length

/-- `"\x60\x60\x60" in text` (Python containment test). -/
def hasFence (l : List Char) : Bool :=
  decide ([backtick, backtick, backtick] <:+: l)

/-! ### Lemmas about `pyStripL` -/

theorem dropWhile_idem (p : α → Bool) (l : List α) :
    (l.dropWhile p).dropWhile p = l.dropWhile p := by
  induction l with
  | nil => rfl
  | cons a t ih =>
    by_cases h : p a
    · simp [List.dropWhile_cons, h, ih]
    · simp [List.dropWhile_cons, h]

theorem head?_dropWhile_not (p : α → Bool) (l : List α) (a : α)
    (h : (l.dropWhile p).head? = some a) : p a = false := by
  induction l with
  | nil => simp at h
  | cons b t ih =>
    cases hb : p b with
    | true =>
      rw [List.dropWhile_cons, hb] at h
      simp only [if_true] at h
      exact ih h
    | false =>
      rw [List.dropWhile_cons, hb] at h
      simp only [Bool.false_eq_true, if_false, List.head?_cons,
        Option.some.injEq] at h
      subst h
      exact hb

theorem dropWhile_suffix (p : α → Bool) (l : List α) :
    ∃ pre, l = pre ++ l.dropWhile p := by
  induction l with
  | nil => exact ⟨[], rfl⟩
  | cons b t ih =>
    by_cases hb : p b
    · obtain ⟨pre, hpre⟩ := ih
      exact ⟨b :: pre, by simp [List.dropWhile_cons, hb, ← hpre]⟩
    · exact ⟨[], by simp [List.dropWhile_cons, hb]⟩

theorem dropWhile_eq_self_of_head (p : α → Bool) (l : List α)
    (h : ∀ a, l.head? = some a → p a = false) : l.dropWhile p = l := by
  cases l with
  | nil => rfl
  | cons a t => simp [List.dropWhile_cons, h a rfl]

/-- The first character of a stripped string is not whitespace. -/
theorem pyStripL_head (l : List Char) (a : Char)
    (h : (pyStripL l).head? = some a) : isWsB a = false := by
  unfold pyStripL at h
  rw [List.head?_reverse] at h
  have hne : ((l.dropWhile isWsB).reverse.dropWhile isWsB) ≠ [] := by
    intro he
    rw [he] at h
    simp at h
  obtain ⟨pre, hpre⟩ := dropWhile_suffix isWsB (l.dropWhile isWsB).reverse
  have h3 : (l.dropWhile isWsB).head? = some a := by
    rw [← List.getLast?_reverse, hpre, List.getLast?_append_of_ne_nil pre hne]
    exact h
  exact head?_dropWhile_not isWsB l a h3

/-- The last character of a stripped string is not whitespace. -/
theorem pyStripL_last (l : List Char) (a : Char)
    (h : (pyStripL l).getLast? = some a) : isWsB a = false := by
  unfold pyStripL at h
  rw [List.getLast?_reverse] at h
  exact head?_dropWhile_not isWsB _ a h

/-- Stripping fixes a list whose first and last elements are not whitespace. -/
theorem pyStripL_eq_self (l : List Char)
    (h1 : ∀ a, l.head? = some a → isWsB a = false)
    (h2 : ∀ a, l.getLast? = some a → isWsB a = false) :
    pyStripL l = l := by
  unfold pyStripL
  rw [dropWhile_eq_self_of_head isWsB l h1]
  rw [dropWhile_eq_self_of_head isWsB l.reverse
    (by intro a ha; rw [List.head?_reverse] at ha; exact h2 a ha)]
  exact List.reverse_reverse l

theorem pyStripL_idem (l : List Char) : pyStripL (pyStripL l) = pyStripL l :=
  pyStripL_eq_self _ (pyStripL_head l) (pyStripL_last l)

/-- Stripping ignores a leading whitespace character. -/
theorem pyStripL_cons_ws (c : Char) (l : List Char) (h : isWsB c = true) :
    pyStripL (c :: l) = pyStripL l := by
  unfold pyStripL
  simp [List.dropWhile_cons, h]

theorem dropWhile_append_single (p : α → Bool) (c : α) (h : p c = true)
    (l : List α) :
    (l ++ [c]).dropWhile p = l.dropWhile p ++ [c] ∨
      ((l ++ [c]).dropWhile p = [] ∧ l.dropWhile p = []) := by
  induction l with
  | nil => right; simp [List.dropWhile_cons, h]
  | cons b t ih =>
    cases hb : p b with
    | true => simpa [List.dropWhile_cons, hb] using ih
    | false => left; simp [List.dropWhile_cons, hb]

/-- Stripping ignores a trailing whitespace character. -/
theorem pyStripL_append_ws (c : Char) (l : List Char) (h : isWsB c = true) :
    pyStripL (l ++ [c]) = pyStripL l := by
  unfold pyStripL
  rcases dropWhile_append_single isWsB c h l with hk | ⟨hk1, hk2⟩
  · rw [hk, List.reverse_append]
    simp [List.dropWhile_cons, h]
  · rw [hk1, hk2]

/-! ## JSON values and `json.loads`

The flow planner calls Python's `json.loads` on the model response
(`interview_flow.py`, `build`).  We embed `json.loads` as a recursive-descent
parser over the character list, restricted to the JSON fragment this
development needs: `null`, booleans, integer numbers, strings with the
single-character escapes, arrays and objects.  (Inputs outside this
fragment — floats, `\u` escapes — make the embedded parser fail where
Python would succeed; the parser never *succeeds* with a value different
from Python's.)  `json.loads` accepts a value surrounded by optional
whitespace, which we model by parsing the stripped input. -/

inductive Json where
  | null : Json
  | bool (b : Bool) : Json
  | num (n : Int) : Json
  | str (s : String) : Json
  | arr (items : List Json) : Json
  | obj (members : List (String × Json)) : Json
  deriving Inhabited

/-- The single-character JSON string escapes accepted by `json.loads`. -/
def escChar (c : Char) : Option Char :=
  if c = dquote then some dquote
  else if c = '\\' then some '\\'
  else if c = '/' then some '/'
  else if c = 'b' then some (Char.ofNat 8)
  else if c = 'f' then some (Char.ofNat 12)
  else if c = 'n' then some '\n'
  else if c = 'r' then some '\r'
  else if c = 't' then some '\t'
  else none

/-- Body of a JSON string, after the opening quote has been consumed. -/
def strBodyAux (acc : List Char) : List Char → Option (String × List Char)
  | [] => none
  | c :: rest =>
    if c = dquote then some (String.mk acc.reverse, rest)
    else if c = '\\' then
      match rest with
      | [] => none
      | e :: r2 =>
        match escChar e with
        | some ce => strBodyAux (ce :: acc) r2
        | none => none
    else strBodyAux (c :: acc) rest

def digitsToNat (ds : List Char) : Nat :=
  ds.foldl (fun a c => a * 10 + (c.toNat - 48)) 0

/-- Digit run of a JSON integer literal, after an optional leading minus
sign (no fraction/exponent: the embedded parser fails on floats rather
than parsing them, and rejects leading zeros as Python does). -/
def parseNumCore (neg : Bool) (l1 : List Char) : Option (Json × List Char) :=
  if l1.takeWhile Char.isDigit = [] then none
  else if 1 < (l1.takeWhile Char.isDigit).length ∧
      (l1.takeWhile Char.isDigit).head? = some '0' then none
  else if (l1.dropWhile Char.isDigit).head? = some '.' ∨
      (l1.dropWhile Char.isDigit).head? = some 'e' ∨
      (l1.dropWhile Char.isDigit).head? = some 'E' then none
  else
    let v : Int := Int.ofNat (digitsToNat (l1.takeWhile Char.isDigit))
    some (.num (if neg then -v else v), l1.dropWhile Char.isDigit)

/-- A JSON integer literal. -/
def parseNumber (l : List Char) : Option (Json × List Char) :=
  match l with
  | [] => none
  | c :: rest => if c = '-' then parseNumCore true rest else parseNumCore false (c :: rest)

def skipWsL (l : List Char) : List Char := l.dropWhile isWsB

mutual

/-- One JSON value, dispatched on the first character (no leading
whitespace expected).  Fuel bounds the recursion depth. -/
def parseVal : Nat → List Char → Option (Json × List Char)
  | 0, _ => none
  | _ + 1, [] => none
  | fuel + 1, c :: rest =>
    if c = 'n' then
      if rest.take 3 = ['u', 'l', 'l'] then some (.null, rest.drop 3) else none
    else if c = 't' then
      if rest.take 3 = ['r', 'u', 'e'] then some (.bool true, rest.drop 3) else none
    else if c = 'f' then
      if rest.take 4 = ['a', 'l', 's', 'e'] then some (.bool false, rest.drop 4) else none
    else if c = dquote then
      match strBodyAux [] rest with
      | some (s, r) => some (.str s, r)
      | none => none
    else if c = '[' then
      let l1 := skipWsL rest
      match l1 with
      | [] => none
      | c1 :: r1 =>
        if c1 = ']' then some (.arr [], r1)
        else
          match parseElems fuel l1 with
          | some (xs, r) => some (.arr xs, r)
          | none => none
    else if c = lbrace then
      let l1 := skipWsL rest
      match l1 with
      | [] => none
      | c1 :: r1 =>
        if c1 = rbrace then some (.obj [], r1)
        else
          match parseMembers fuel l1 with
          | some (ms, r) => some (.obj ms, r)
          | none => none
    else if c = '-' ∨ c.isDigit then parseNumber (c :: rest)
    else none

/-- Comma-separated array elements, up to and including the closing
bracket. -/
def parseElems : Nat → List Char → Option (List Json × List Char)
  | 0, _ => none
  | fuel + 1, l =>
    match parseVal fuel (skipWsL l) with
    | none => none
    | some (v, r) =>
      match skipWsL r with
      | [] => none
      | c :: r2 =>
        if c = ',' then
          match parseElems fuel r2 with
          | some (vs, r3) => some (v :: vs, r3)
          | none => none
        else if c = ']' then some ([v], r2)
        else none

/-- Comma-separated object members, up to and including the closing
brace. -/
def parseMembers : Nat → List Char → Option (List (String × Json) × List Char)
  | 0, _ => none
  | fuel + 1, l =>
    match skipWsL l with
    | [] => none
    | c :: r0 =>
      if c = dquote then
        match strBodyAux [] r0 with
        | none => none
        | some (k, r1) =>
          match skipWsL r1 with
          | [] => none
          | c2 :: r2 =>
            if c2 = ':' then
              match parseVal fuel (skipWsL r2) with
              | none => none
              | some (v, r3) =>
                match skipWsL r3 with
                | [] => none
                | c3 :: r4 =>
                  if c3 = ',' then
                    match parseMembers fuel r4 with
                    | some (ms, r5) => some ((k, v) :: ms, r5)
                    | none => none
                  else if c3 = rbrace then some ([(k, v)], r4)
                  else none
            else none
      else none

end

/-- `json.loads`: parse the stripped input, requiring that nothing but
whitespace remains after the value. -/
def jsonLoads (s : String) : Option Json :=
  match parseVal (2 * (pyStripL s.data).length + 2) (pyStripL s.data) with
  | some (v, r) => if skipWsL r = [] then some v else none
  | none => none

/-! ## The flow planner (`interview_flow.py`)

`InterviewFlow.build` parses the generation response into a list of
`InterviewStep`s; `InterviewFlow._extract_json_block` is the fenced-block
fallback; `InterviewFlow.next_step` is the cursor-based iterator.  Step
fields keep the dynamic typing of the source: `item.get(...)` can hand back
any JSON value, and the dataclass does not enforce strings. -/

/-- `InterviewStep` (a dataclass; fields are whatever `item.get` returned). -/
structure InterviewStep where
  title : Json
  question : Json
  followups : Json
  deriving Inhabited

/-- Python truthiness of a decoded JSON value (used by
`item.get("followups", []) or []`). -/
def jsonTruthy : Json → Bool
  | .null => false
  | .bool b => b
  | .num n => n != 0
  | .str s => s != ""
  | .arr items => !items.isEmpty
  | .obj members => !members.isEmpty

/-- `dict.get(key, default)`.  With duplicate keys `json.loads` keeps the
last value, so lookup returns the last matching member. -/
def dictGetD (ms : List (String × Json)) (k : String) (d : Json) : Json :=
  match (ms.filter (fun p => p.1 = k)).getLast? with
  | some p => p.2
  | none => d

/-- Python iteration over a decoded JSON value (`for item in data`):
lists yield their items, dicts their keys (in first-occurrence order,
duplicates collapsed), strings their characters; other values raise
`TypeError`. -/
inductive FlowErr where
  | planParse : FlowErr      -- LLMClientError: failed to parse interview plan
  | jsonDecode : FlowErr     -- json.JSONDecodeError escaping `build`
  | pyTypeError : FlowErr    -- iterating a non-iterable response value
  | pyAttrError : FlowErr    -- `item.get` on a non-dict item
  deriving DecidableEq, Repr

def pyIterate : Json → Except FlowErr (List Json)
  | .arr items => .ok items
  | .obj members => .ok (((members.map Prod.fst).eraseDups).map Json.str)
  | .str s => .ok (s.data.map (fun c => Json.str (String.mk [c])))
  | _ => .error .pyTypeError

/-- One list-comprehension item of `build`:
`InterviewStep(title=item.get("title", f"Step {idx + 1}"),
question=item.get("question", ""), followups=item.get("followups", []) or [])`. -/
def mkStep (idx : Nat) : Json → Except FlowErr InterviewStep
  | .obj ms =>
    .ok
      { title := dictGetD ms "title" (.str ("Step " ++ toString (idx + 1)))
        question := dictGetD ms "question" (.str "")
        followups :=
          let f := dictGetD ms "followups" (.arr [])
          if jsonTruthy f then f else .arr [] }
  | _ => .error .pyAttrError

def stepsOfItems (idx : Nat) : List Json → Except FlowErr (List InterviewStep)
  | [] => .ok []
  | item :: rest =>
    match mkStep idx item with
    | .error e => .error e
    | .ok st =>
      match stepsOfItems (idx + 1) rest with
      | .error e => .error e
      | .ok sts => .ok (st :: sts)

/-- The list comprehension over `enumerate(data)`. -/
def stepsOfData (data : Json) : Except FlowErr (List InterviewStep) :=
  match pyIterate data with
  | .error e => .error e
  | .ok items => stepsOfItems 0 items

/-- Scan the parts of `text.split("\x60\x60\x60")` for the first whose
stripped content starts with `[` and ends with `]`. -/
def firstBracketPart : List (List Char) → Option String
  | [] => none
  | p :: ps =>
    let cand := pyStripL p
    if cand.head? = some '[' ∧ cand.getLast? = some ']' then
      some (String.mk cand)
    else firstBracketPart ps

/-- `InterviewFlow._extract_json_block`. -/
def extractJsonBlock (text : String) : Option String :=
  if hasFence text.data then firstBracketPart (splitFenceAux [] text.data)
  else none

/-- The parsing part of `InterviewFlow.build`, as a function of the raw
generation response: strict `json.loads` first, then the fenced-block
fallback, then the list comprehension building the steps. -/
def buildFromResponse (raw : String) : Except FlowErr (List InterviewStep) :=
  match jsonLoads raw with
  | some data => stepsOfData data
  | none =>
    match extractJsonBlock raw with
    | none => .error .planParse
    | some cleaned =>
      match jsonLoads cleaned with
      | some data => stepsOfData data
      | none => .error .jsonDecode

/-- The mutable fields of `InterviewFlow` that `build`/`next_step` touch:
`_steps` and `_current_index`. -/
structure FlowState where
  steps : List InterviewStep
  currentIndex : Nat

/-- `InterviewFlow.next_step`. -/
def nextStep (st : FlowState) : Option InterviewStep × FlowState :=
  if h : st.currentIndex < st.steps.length then
    (some (st.steps.get ⟨st.currentIndex, h⟩),
      { st with currentIndex := st.currentIndex + 1 })
  else (none, st)

/-- The state effect of `InterviewFlow.build`: on success `_steps` is
replaced and `_current_index` reset to 0; on failure the exception
propagates. -/
def buildApply (_st : FlowState) (raw : String) : Except FlowErr FlowState :=
  match buildFromResponse raw with
  | .ok steps => .ok { steps := steps, currentIndex := 0 }
  | .error e => .error e

/-- `n` successive calls to `next_step`, collecting the returned values. -/
def runNext : Nat → FlowState → List (Option InterviewStep) × FlowState
  | 0, st => ([], st)
  | n + 1, st =>
    let (o, st1) := nextStep st
    let (os, st2) := runNext n st1
    (o :: os, st2)

/-! ## The transcript ledger (`transcript.py`)

`TranscriptManager.append` renders `f"{speaker}: {text.strip()}"`, appends
it to `_entries` and rewrites the whole file with
`"\n".join(self._entries)`.  The file is modelled as `Option String`
(`none` before the first write). -/

structure TState where
  entries : List String
  file : Option String
  deriving DecidableEq, Repr

def tsInit : TState := { entries := [], file := none }

/-- Rendering of one entry: `f"{speaker}: {text.strip()}"`. -/
def renderEntry (speaker text : String) : String :=
  speaker ++ ": " ++ pyStripS text

/-- `TranscriptManager.append(speaker, text)`. -/
def tmAppend (ts : TState) (speaker text : String) : TState :=
  let line := renderEntry speaker text
  { entries := ts.entries ++ [line]
    file := some (joinNL (ts.entries ++ [line])) }

/-- A whole sequence of `append` calls. -/
def tmAppendAll (ts : TState) (ops : List (String × String)) : TState :=
  ops.foldl (fun a p => tmAppend a p.1 p.2) ts

/-! ## The audio recorder and bridge (`audio.py`)

`SystemAudioRecorder.stop` clears `_running`, and stops/closes/clears the
stream and joins the writer thread only behind `if self._stream:` /
`if self._thread and self._thread.is_alive():` guards, so it is total:
no state requires start to have been called.  (Faults inside the external
sounddevice/soundfile calls are outside the model.)  `AudioBridge.stop`
just delegates to `recorder.stop()`. -/

structure RecorderState where
  running : Bool
  stream : Option Unit
  thread : Option Unit
  deriving DecidableEq, Repr

/-- The recorder as constructed (`__init__`): event cleared, no stream,
no thread. -/
def recorderInit : RecorderState :=
  { running := false, stream := none, thread := none }

inductive PyExc where
  | exc (msg : String) : PyExc
  deriving DecidableEq, Repr

/-- `SystemAudioRecorder.stop` (joining the writer thread does not change
any of the recorder's fields). -/
def recorderStop (st : RecorderState) : Except PyExc RecorderState :=
  .ok { running := false, stream := none, thread := st.thread }

/-- `AudioBridge.stop`. -/
def bridgeStopFn (st : RecorderState) : Except PyExc RecorderState :=
  recorderStop st

/-! ## Settings (`settings.py`) and the LLM client checks (`llm.py`) -/

/-- `LLMProviderConfig` (the `extra` dict as an association list). -/
structure LLMProviderConfig where
  provider : String
  model : String
  api_key : Option String
  extra : List (String × String)

/-- `InterviewSettings` (paths as plain strings). -/
structure InterviewSettings where
  meeting_url : String
  candidate_name : String
  interviewer_name : String
  cv_path : String
  llm : LLMProviderConfig
  transcript_path : String
  audio_output_path : String
  video_output_path : String
  question_voice : String
  capture_loopback_device : Option String
  virtual_microphone_device : Option String
  interview_outline : Option String
  warmup_prompt : Option String

/-- Python `if not self.config.api_key:` — the key is missing when `None`
or the empty string (the only falsy string). -/
def keyMissing : Option String → Bool
  | none => true
  | some s => s == ""

/-- Python `str.lower()` (ASCII case folding suffices here). -/
def pyLower (s : String) : String := String.mk (s.data.map Char.toLower)

/-- Errors surfaced by the background worker. -/
inductive RunErr where
  | llmError (msg : String) : RunErr      -- LLMClientError
  | extractErr (msg : String) : RunErr    -- CV extraction failure
  | planError (e : FlowErr) : RunErr      -- plan parsing failure in build
  | external (msg : String) : RunErr      -- any other collaborator exception
  deriving DecidableEq, Repr

/-- The provider dispatch and credential check performed by
`LLMClient.generate` before any provider traffic: unsupported providers and
missing keys raise `LLMClientError`; otherwise the call's outcome is
whatever the external provider returns (`r`). -/
def generateOutcome (cfg : LLMProviderConfig) (r : Except String String) :
    Except RunErr String :=
  let p := pyLower cfg.provider
  if p = "openai" ∨ p = "anthropic" ∨ p = "google" ∨ p = "gemini" ∨
      p = "google-genai" then
    if keyMissing cfg.api_key then
      .error (.llmError ("An API key is required for provider '" ++
        cfg.provider ++ "'."))
    else
      match r with
      | .ok s => .ok s
      | .error m => .error (.external m)
  else .error (.llmError ("Unsupported provider '" ++ cfg.provider ++ "'."))

/-! ## The session controller (`controller.py`)

`InterviewController._async_run` is embedded as a pure function of an
explicit environment fixing every external outcome: the cancellation-flag
observations at the loop boundaries (`_stop_event.is_set()`), and
success/failure of each collaborator call.  The run's observable behaviour
is collected in `RunOut`: the three notification channels, the ledger
(shared with the `TState` model), a trace of collaborator calls, and the
final outcome (`none` = returned normally, `some e` = exception `e`
escaped the worker).

The controller reads `step.question` / `step.followups` as a string and a
list of strings (the shape its own prompt asks the planner for); `PlanStep`
is `InterviewStep` specialised to that well-typed case.  The file-system
side effects that cannot fail in the model (directory creation, the
transcript rewrite) are treated as always succeeding. -/

/-- An interview step as the controller consumes it. -/
structure PlanStep where
  title : String
  question : String
  followups : List String
  deriving DecidableEq, Repr

/-- Trace of collaborator calls made by the worker (recorded at call time,
whether or not the call then fails). -/
inductive Ev where
  | extractCall : Ev
  | generateCall : Ev
  | bridgeStartCall : Ev
  | connectCall : Ev
  | speakCall (text : String) : Ev
  | appendCall (speaker line : String) : Ev
  | chatCall (text : String) : Ev
  | leaveCall : Ev
  | bridgeStopCall : Ev
  | transcribeCall : Ev
  | summaryCall : Ev
  deriving DecidableEq, Repr

/-- Observable output of one background run. -/
structure RunOut where
  statuses : List String := []
  tnotifs : List String := []
  snotifs : List String := []
  entries : List String := []
  fileContent : Option String := none
  events : List Ev := []
  outcome : Option RunErr := none
  deriving DecidableEq, Repr

/-- Environment: outcome of every external interaction of one run. -/
structure Env where
  /-- `self._stop_event.is_set()` at the i-th loop boundary check. -/
  stopObs : Nat → Bool
  /-- `extract_text(settings.cv_path)`. -/
  extractResult : Except String String
  /-- the provider call inside the first `llm.generate` (the plan build). -/
  buildGenResult : Except String String
  /-- the plan produced by `flow.build()` when generation succeeded
  (response parsing is modelled by `buildFromResponse`; here its result is
  part of the environment, specialised to string-valued steps). -/
  planResult : Except RunErr (List PlanStep)
  /-- `bridge.start()`: `none` = ok. -/
  bridgeStartFail : Option String
  /-- entering `meet.session()`: `none` = ok. -/
  connectFail : Option String
  /-- `bridge.ask` (text-to-speech) at the i-th step: `none` = ok. -/
  speakFail : Nat → Option String
  /-- `meet.send_chat_message(...)`: `none` = ok. -/
  chatFail : Option String
  /-- `meet.leave()`: `none` = ok. -/
  leaveFail : Option String
  /-- `bridge.stop()`: `none` = ok. -/
  bridgeStopFail : Option String
  /-- `transcript.transcribe_audio(...)`. -/
  transcribeResult : Except String String
  /-- the provider call inside `transcript.summary(llm)`. -/
  summaryGenResult : Except String String

def addEv (st : RunOut) (e : Ev) : RunOut :=
  { st with events := st.events ++ [e] }

def emitStatus (st : RunOut) (m : String) : RunOut :=
  { st with statuses := st.statuses ++ [m] }

def emitTranscript (st : RunOut) (m : String) : RunOut :=
  { st with tnotifs := st.tnotifs ++ [m] }

def emitSummary (st : RunOut) (m : String) : RunOut :=
  { st with snotifs := st.snotifs ++ [m] }

/-- `transcript.append(speaker, text)` plus the run's call trace: renders
the entry, extends the ledger, rewrites the file. -/
def appendEntry (st : RunOut) (speaker text : String) : RunOut :=
  let line := renderEntry speaker text
  { st with
    entries := st.entries ++ [line]
    fileContent := some (joinNL (st.entries ++ [line]))
    events := st.events ++ [Ev.appendCall speaker line] }

/-- How the `for step in steps:` loop ended. -/
inductive LoopExit where
  | normal : LoopExit
  | broke : LoopExit
  | raised (e : RunErr) : LoopExit
  deriving DecidableEq, Repr

/-- The effect of one fully processed loop iteration: append the question,
notify the rendered ledger, speak, append the follow-up annotations, emit
the waiting status (the two timed waits have no observable effect). -/
def stepEffect (S : InterviewSettings) (st : RunOut) (step : PlanStep) :
    RunOut :=
  let stA := appendEntry st S.interviewer_name step.question
  let stB := emitTranscript stA (joinNL stA.entries)
  let stC := addEv stB (Ev.speakCall step.question)
  let stD := step.followups.foldl
    (fun a f => appendEntry a S.interviewer_name ("(Optional follow-up) " ++ f))
    stC
  emitStatus stD "Waiting for candidate response…"

/-- The `for step in steps:` loop of `_async_run`: check the cancellation
flag at each boundary, then process the step; a text-to-speech failure
raises out of the loop after the question was already appended and
notified. -/
def interviewLoop (S : InterviewSettings) (env : Env) :
    List PlanStep → Nat → RunOut → RunOut × LoopExit
  | [], _, st => (st, .normal)
  | step :: rest, i, st =>
    if env.stopObs i then (st, .broke)
    else
      let stA := appendEntry st S.interviewer_name step.question
      let stB := emitTranscript stA (joinNL stA.entries)
      let stC := addEv stB (Ev.speakCall step.question)
      match env.speakFail i with
      | some m => (stC, .raised (.external m))
      | none =>
        let stD := step.followups.foldl
          (fun a f =>
            appendEntry a S.interviewer_name ("(Optional follow-up) " ++ f))
          stC
        let stE := emitStatus stD "Waiting for candidate response…"
        interviewLoop S env rest (i + 1) stE

/-- The `finally: bridge.stop()` when an exception `e` is pending: the stop
is attempted; if it raises, its exception replaces `e`; either way the
pending exception propagates and the run ends. -/
def bridgeStopPropagate (env : Env) (st : RunOut) (e : RunErr) : RunOut :=
  let st := addEv st Ev.bridgeStopCall
  match env.bridgeStopFail with
  | some m2 => { st with outcome := some (.external m2) }
  | none => { st with outcome := some e }

/-- Everything of `_async_run` after the interview loop ends without an
exception (normally or via the cancellation `break`): the closing chat
message, leaving the meet, the `finally` bridge stop, transcription with
its placeholder fallback, the candidate append, and the summary. -/
def concludePhase (S : InterviewSettings) (env : Env) (st4 : RunOut) : RunOut :=
  let st5 := addEv st4
    (Ev.chatCall "Thank you for your time! We'll follow up shortly.")
  match env.chatFail with
  | some m => bridgeStopPropagate env st5 (.external m)
  | none =>
    let st6 := addEv st5 Ev.leaveCall
    match env.leaveFail with
    | some m => bridgeStopPropagate env st6 (.external m)
    | none =>
      let st7 := addEv st6 Ev.bridgeStopCall
      match env.bridgeStopFail with
      | some m => { st7 with outcome := some (.external m) }
      | none =>
        let st8 := addEv st7 Ev.transcribeCall
        let candidateText :=
          match env.transcribeResult with
          | .ok t => t
          | .error m => "[Transcription unavailable: " ++ m ++ "]"
        let st9 := appendEntry st8 S.candidate_name candidateText
        let st10 := emitTranscript st9 (joinNL st9.entries)
        let st11 := addEv st10 Ev.summaryCall
        match generateOutcome S.llm env.summaryGenResult with
        | .error e => { st11 with outcome := some e }
        | .ok summ =>
          let st12 := emitSummary st11 (pyStripS summ)
          emitStatus st12 "Interview complete."

/-- Everything of `_async_run` from `transcript = TranscriptManager(...)`
to the end, given the built plan: audio bridge start, the scoped meet
session around the loop, then `concludePhase` (or exception propagation
through the `finally` bridge stop). -/
def interviewPhase (S : InterviewSettings) (env : Env)
    (steps : List PlanStep) (st0 : RunOut) : RunOut :=
  let st1 := addEv st0 Ev.bridgeStartCall
  match env.bridgeStartFail with
  | some m => { st1 with outcome := some (.external m) }
  | none =>
    let st2 := addEv st1 Ev.connectCall
    match env.connectFail with
    | some m => bridgeStopPropagate env st2 (.external m)
    | none =>
      let st3 := emitStatus st2 "Connected to Google Meet. Beginning interview…"
      match interviewLoop S env steps 0 st3 with
      | (st4, .raised e) => bridgeStopPropagate env st4 e
      | (st4, .normal) => concludePhase S env st4
      | (st4, .broke) => concludePhase S env st4

/-- `_async_run` in full: CV extraction, the plan build (whose first
`llm.generate` call performs the provider/credential checks), then the
interview phase. -/
def asyncRun (S : InterviewSettings) (env : Env) : RunOut :=
  let st := emitStatus {} "Parsing CV document…"
  let st := addEv st Ev.extractCall
  match env.extractResult with
  | .error m => { st with outcome := some (.extractErr m) }
  | .ok _cv =>
    let st := emitStatus st "Generating interview flow with LLM…"
    let st := addEv st Ev.generateCall
    match generateOutcome S.llm env.buildGenResult with
    | .error e => { st with outcome := some e }
    | .ok _raw =>
      match env.planResult with
      | .error e => { st with outcome := some e }
      | .ok steps => interviewPhase S env steps st

/-! ## Structural lemmas about the JSON parser -/

theorem takeWhile_append_dropWhile (p : α → Bool) (l : List α) :
    l.takeWhile p ++ l.dropWhile p = l := by
  rw [List.takeWhile_append_dropWhile]

theorem strBodyAux_suffix_bounded (n : Nat) :
    ∀ l : List Char, l.length ≤ n → ∀ acc s r,
      strBodyAux acc l = some (s, r) → ∃ p, l = p ++ r := by
  induction n with
  | zero =>
    intro l hl acc s r h
    have : l = [] := List.length_eq_zero.mp (Nat.le_zero.mp hl)
    subst this
    exact Option.noConfusion h
  | succ n ih =>
    intro l hl acc s r h
    rcases l with _ | ⟨c, rest⟩
    · exact Option.noConfusion h
    · rw [strBodyAux.eq_def] at h
      dsimp only at h
      by_cases hq : c = dquote
      · rw [if_pos hq] at h
        simp only [Option.some.injEq, Prod.mk.injEq] at h
        exact ⟨[c], by rw [h.2]; rfl⟩
      · rw [if_neg hq] at h
        by_cases hb : c = '\\'
        · rw [if_pos hb] at h
          rcases rest with _ | ⟨e, r2⟩
          · exact Option.noConfusion h
          · dsimp only at h
            rcases he : escChar e with _ | ce
            · rw [he] at h; simp at h
            · rw [he] at h
              obtain ⟨p, hp⟩ := ih r2
                (by simp at hl ⊢; omega) (ce :: acc) s r h
              exact ⟨c :: e :: p, by rw [hp]; rfl⟩
        · rw [if_neg hb] at h
          obtain ⟨p, hp⟩ := ih rest (by simp at hl ⊢; omega) (c :: acc) s r h
          exact ⟨c :: p, by rw [hp]; rfl⟩

theorem strBodyAux_suffix (l : List Char) (acc : List Char) (s : String)
    (r : List Char) (h : strBodyAux acc l = some (s, r)) : ∃ p, l = p ++ r :=
  strBodyAux_suffix_bounded l.length l (Nat.le_refl _) acc s r h

theorem parseNumCore_suffix (neg : Bool) (l1 : List Char) (v : Json)
    (r : List Char) (h : parseNumCore neg l1 = some (v, r)) :
    ∃ p, l1 = p ++ r := by
  unfold parseNumCore at h
  split at h
  · exact absurd h (by simp)
  · split at h
    · exact absurd h (by simp)
    · split at h
      · exact absurd h (by simp)
      · simp only [Option.some.injEq, Prod.mk.injEq] at h
        exact ⟨l1.takeWhile Char.isDigit,
          by rw [← h.2, takeWhile_append_dropWhile]⟩

theorem parseNumber_suffix (l : List Char) (v : Json) (r : List Char)
    (h : parseNumber l = some (v, r)) : ∃ p, l = p ++ r := by
  rcases l with _ | ⟨c, rest⟩
  · simp [parseNumber] at h
  · simp only [parseNumber] at h
    by_cases hc : c = '-'
    · rw [if_pos hc] at h
      obtain ⟨p, hp⟩ := parseNumCore_suffix true rest v r h
      exact ⟨c :: p, by rw [hp]; rfl⟩
    · rw [if_neg hc] at h
      exact parseNumCore_suffix false (c :: rest) v r h

/-- `skipWsL l` is a suffix of `l`, with the whitespace prefix in front. -/
theorem skipWsL_decomp (l : List Char) :
    l = l.takeWhile isWsB ++ skipWsL l := by
  rw [skipWsL, takeWhile_append_dropWhile]

/-- What each parser returns as "rest" is a suffix of its input. -/
theorem parse_suffix (fuel : Nat) :
    (∀ l v r, parseVal fuel l = some (v, r) → ∃ p, l = p ++ r) ∧
    (∀ l vs r, parseElems fuel l = some (vs, r) → ∃ p, l = p ++ r) ∧
    (∀ l ms r, parseMembers fuel l = some (ms, r) → ∃ p, l = p ++ r) := by
  induction fuel with
  | zero =>
    exact ⟨fun _ _ _ h => Option.noConfusion h,
      fun _ _ _ h => Option.noConfusion h,
      fun _ _ _ h => Option.noConfusion h⟩
  | succ f ih =>
    obtain ⟨ihV, ihE, ihM⟩ := ih
    refine ⟨?_, ?_, ?_⟩
    · -- parseVal
      intro l v r h
      rcases l with _ | ⟨c, rest⟩
      · exact Option.noConfusion h
      rw [parseVal.eq_def] at h
      dsimp only at h
      by_cases hn : c = 'n'
      · rw [if_pos hn] at h
        by_cases ht : rest.take 3 = ['u', 'l', 'l']
        · rw [if_pos ht] at h
          simp only [Option.some.injEq, Prod.mk.injEq] at h
          exact ⟨c :: rest.take 3, by rw [← h.2]; simp [List.take_append_drop]⟩
        · rw [if_neg ht] at h; exact Option.noConfusion h
      rw [if_neg hn] at h
      by_cases htt : c = 't'
      · rw [if_pos htt] at h
        by_cases ht : rest.take 3 = ['r', 'u', 'e']
        · rw [if_pos ht] at h
          simp only [Option.some.injEq, Prod.mk.injEq] at h
          exact ⟨c :: rest.take 3, by rw [← h.2]; simp [List.take_append_drop]⟩
        · rw [if_neg ht] at h; exact Option.noConfusion h
      rw [if_neg htt] at h
      by_cases hf : c = 'f'
      · rw [if_pos hf] at h
        by_cases ht : rest.take 4 = ['a', 'l', 's', 'e']
        · rw [if_pos ht] at h
          simp only [Option.some.injEq, Prod.mk.injEq] at h
          exact ⟨c :: rest.take 4, by rw [← h.2]; simp [List.take_append_drop]⟩
        · rw [if_neg ht] at h; exact Option.noConfusion h
      rw [if_neg hf] at h
      by_cases hq : c = dquote
      · rw [if_pos hq] at h
        rcases hsb : strBodyAux [] rest with _ | ⟨s, rr⟩
        · rw [hsb] at h; exact Option.noConfusion h
        · rw [hsb] at h
          dsimp only at h
          simp only [Option.some.injEq, Prod.mk.injEq] at h
          obtain ⟨p, hp⟩ := strBodyAux_suffix rest [] s rr hsb
          exact ⟨c :: p, by rw [← h.2, hp]; rfl⟩
      rw [if_neg hq] at h
      by_cases hbr : c = '['
      · rw [if_pos hbr] at h
        rcases hl1 : skipWsL rest with _ | ⟨c1, r1⟩
        · rw [hl1] at h; exact Option.noConfusion h
        rw [hl1] at h
        dsimp only at h
        have hr : rest = rest.takeWhile isWsB ++ (c1 :: r1) := by
          rw [← hl1]; exact skipWsL_decomp rest
        by_cases hc1 : c1 = ']'
        · rw [if_pos hc1] at h
          simp only [Option.some.injEq, Prod.mk.injEq] at h
          refine ⟨c :: (rest.takeWhile isWsB ++ [c1]), ?_⟩
          rw [← h.2]
          conv_lhs => rw [hr]
          simp
        · rw [if_neg hc1] at h
          rcases hpe : parseElems f (c1 :: r1) with _ | ⟨xs, rr⟩
          · rw [hpe] at h; exact Option.noConfusion h
          · rw [hpe] at h
            dsimp only at h
            simp only [Option.some.injEq, Prod.mk.injEq] at h
            obtain ⟨p, hp⟩ := ihE (c1 :: r1) xs rr hpe
            refine ⟨c :: (rest.takeWhile isWsB ++ p), ?_⟩
            rw [← h.2]
            conv_lhs => rw [hr, hp]
            simp
      rw [if_neg hbr] at h
      by_cases hob : c = lbrace
      · rw [if_pos hob] at h
        rcases hl1 : skipWsL rest with _ | ⟨c1, r1⟩
        · rw [hl1] at h; exact Option.noConfusion h
        rw [hl1] at h
        dsimp only at h
        have hr : rest = rest.takeWhile isWsB ++ (c1 :: r1) := by
          rw [← hl1]; exact skipWsL_decomp rest
        by_cases hc1 : c1 = rbrace
        · rw [if_pos hc1] at h
          simp only [Option.some.injEq, Prod.mk.injEq] at h
          refine ⟨c :: (rest.takeWhile isWsB ++ [c1]), ?_⟩
          rw [← h.2]
          conv_lhs => rw [hr]
          simp
        · rw [if_neg hc1] at h
          rcases hpm : parseMembers f (c1 :: r1) with _ | ⟨ms, rr⟩
          · rw [hpm] at h; exact Option.noConfusion h
          · rw [hpm] at h
            dsimp only at h
            simp only [Option.some.injEq, Prod.mk.injEq] at h
            obtain ⟨p, hp⟩ := ihM (c1 :: r1) ms rr hpm
            refine ⟨c :: (rest.takeWhile isWsB ++ p), ?_⟩
            rw [← h.2]
            conv_lhs => rw [hr, hp]
            simp
      rw [if_neg hob] at h
      by_cases hd : c = '-' ∨ c.isDigit
      · rw [if_pos hd] at h
        exact parseNumber_suffix (c :: rest) v r h
      · rw [if_neg hd] at h; exact Option.noConfusion h
    · -- parseElems
      intro l vs r h
      rw [parseElems.eq_def] at h
      dsimp only at h
      rcases hpv : parseVal f (skipWsL l) with _ | ⟨v, rv⟩
      · rw [hpv] at h; exact Option.noConfusion h
      rw [hpv] at h
      dsimp only at h
      obtain ⟨pv, hpv2⟩ := ihV (skipWsL l) v rv hpv
      rcases hs2 : skipWsL rv with _ | ⟨c, r2⟩
      · rw [hs2] at h; exact Option.noConfusion h
      rw [hs2] at h
      dsimp only at h
      have hrv : rv = rv.takeWhile isWsB ++ (c :: r2) := by
        rw [← hs2]; exact skipWsL_decomp rv
      by_cases hc : c = ','
      · rw [if_pos hc] at h
        rcases hpe : parseElems f r2 with _ | ⟨vs2, r3⟩
        · rw [hpe] at h; exact Option.noConfusion h
        · rw [hpe] at h
          dsimp only at h
          simp only [Option.some.injEq, Prod.mk.injEq] at h
          obtain ⟨p2, hp2⟩ := ihE r2 vs2 r3 hpe
          refine ⟨l.takeWhile isWsB ++ pv ++ rv.takeWhile isWsB ++ (c :: p2), ?_⟩
          rw [← h.2]
          conv_lhs => rw [skipWsL_decomp l, hpv2, hrv, hp2]
          simp
      · rw [if_neg hc] at h
        by_cases hc2 : c = ']'
        · rw [if_pos hc2] at h
          simp only [Option.some.injEq, Prod.mk.injEq] at h
          refine ⟨l.takeWhile isWsB ++ pv ++ rv.takeWhile isWsB ++ [c], ?_⟩
          rw [← h.2]
          conv_lhs => rw [skipWsL_decomp l, hpv2, hrv]
          simp
        · rw [if_neg hc2] at h; exact Option.noConfusion h
    · -- parseMembers
      intro l ms r h
      rw [parseMembers.eq_def] at h
      dsimp only at h
      rcases hs0 : skipWsL l with _ | ⟨c, r0⟩
      · rw [hs0] at h; exact Option.noConfusion h
      rw [hs0] at h
      dsimp only at h
      have hl0 : l = l.takeWhile isWsB ++ (c :: r0) := by
        rw [← hs0]; exact skipWsL_decomp l
      by_cases hq : c = dquote
      · rw [if_pos hq] at h
        rcases hsb : strBodyAux [] r0 with _ | ⟨k, r1⟩
        · rw [hsb] at h; exact Option.noConfusion h
        rw [hsb] at h
        dsimp only at h
        obtain ⟨pk, hpk⟩ := strBodyAux_suffix r0 [] k r1 hsb
        rcases hs1 : skipWsL r1 with _ | ⟨c2, r2⟩
        · rw [hs1] at h; exact Option.noConfusion h
        rw [hs1] at h
        dsimp only at h
        have hr1 : r1 = r1.takeWhile isWsB ++ (c2 :: r2) := by
          rw [← hs1]; exact skipWsL_decomp r1
        by_cases hcol : c2 = ':'
        · rw [if_pos hcol] at h
          rcases hpv : parseVal f (skipWsL r2) with _ | ⟨v, r3⟩
          · rw [hpv] at h; exact Option.noConfusion h
          rw [hpv] at h
          dsimp only at h
          obtain ⟨pv, hpv2⟩ := ihV (skipWsL r2) v r3 hpv
          have hr2 : r2 = r2.takeWhile isWsB ++ (pv ++ r3) := by
            conv_lhs => rw [skipWsL_decomp r2, hpv2]
          rcases hs3 : skipWsL r3 with _ | ⟨c3, r4⟩
          · rw [hs3] at h; exact Option.noConfusion h
          rw [hs3] at h
          dsimp only at h
          have hr3 : r3 = r3.takeWhile isWsB ++ (c3 :: r4) := by
            rw [← hs3]; exact skipWsL_decomp r3
          by_cases hcomma : c3 = ','
          · rw [if_pos hcomma] at h
            rcases hpm : parseMembers f r4 with _ | ⟨ms2, r5⟩
            · rw [hpm] at h; exact Option.noConfusion h
            · rw [hpm] at h
              dsimp only at h
              simp only [Option.some.injEq, Prod.mk.injEq] at h
              obtain ⟨pm, hpm2⟩ := ihM r4 ms2 r5 hpm
              refine ⟨l.takeWhile isWsB ++ (c :: (pk ++ (r1.takeWhile isWsB ++
                (c2 :: (r2.takeWhile isWsB ++ pv ++ (r3.takeWhile isWsB ++
                (c3 :: pm))))))), ?_⟩
              rw [← h.2]
              conv_lhs => rw [hl0, hpk, hr1, hr2, hr3, hpm2]
              simp
          · rw [if_neg hcomma] at h
            by_cases hbr : c3 = rbrace
            · rw [if_pos hbr] at h
              simp only [Option.some.injEq, Prod.mk.injEq] at h
              refine ⟨l.takeWhile isWsB ++ (c :: (pk ++ (r1.takeWhile isWsB ++
                (c2 :: (r2.takeWhile isWsB ++ pv ++ (r3.takeWhile isWsB ++
                [c3])))))), ?_⟩
              rw [← h.2]
              conv_lhs => rw [hl0, hpk, hr1, hr2, hr3]
              simp
            · rw [if_neg hbr] at h; exact Option.noConfusion h
        · rw [if_neg hcol] at h; exact Option.noConfusion h
      · rw [if_neg hq] at h; exact Option.noConfusion h

/-- `parseElems` consumes up to and including the closing bracket. -/
theorem parseElems_ends (fuel : Nat) :
    ∀ l vs r, parseElems fuel l = some (vs, r) → ∃ p, l = p ++ ']' :: r := by
  induction fuel with
  | zero => exact fun _ _ _ h => Option.noConfusion h
  | succ f ih =>
    intro l vs r h
    rw [parseElems.eq_def] at h
    dsimp only at h
    rcases hpv : parseVal f (skipWsL l) with _ | ⟨v, rv⟩
    · rw [hpv] at h; exact Option.noConfusion h
    rw [hpv] at h
    dsimp only at h
    obtain ⟨pv, hpv2⟩ := (parse_suffix f).1 (skipWsL l) v rv hpv
    rcases hs2 : skipWsL rv with _ | ⟨c, r2⟩
    · rw [hs2] at h; exact Option.noConfusion h
    rw [hs2] at h
    dsimp only at h
    have hrv : rv = rv.takeWhile isWsB ++ (c :: r2) := by
      rw [← hs2]; exact skipWsL_decomp rv
    by_cases hc : c = ','
    · rw [if_pos hc] at h
      rcases hpe : parseElems f r2 with _ | ⟨vs2, r3⟩
      · rw [hpe] at h; exact Option.noConfusion h
      · rw [hpe] at h
        dsimp only at h
        simp only [Option.some.injEq, Prod.mk.injEq] at h
        obtain ⟨p2, hp2⟩ := ih r2 vs2 r3 hpe
        refine ⟨l.takeWhile isWsB ++ pv ++ rv.takeWhile isWsB ++ (c :: p2), ?_⟩
        rw [← h.2]
        conv_lhs => rw [skipWsL_decomp l, hpv2, hrv, hp2]
        simp
    · rw [if_neg hc] at h
      by_cases hc2 : c = ']'
      · rw [if_pos hc2] at h
        simp only [Option.some.injEq, Prod.mk.injEq] at h
        refine ⟨l.takeWhile isWsB ++ pv ++ rv.takeWhile isWsB, ?_⟩
        rw [← h.2]
        conv_lhs => rw [skipWsL_decomp l, hpv2, hrv]
        rw [hc2]
        simp
      · rw [if_neg hc2] at h; exact Option.noConfusion h

theorem parseNumCore_isNum (neg : Bool) (l1 : List Char) (v : Json)
    (r : List Char) (h : parseNumCore neg l1 = some (v, r)) :
    ∃ n, v = Json.num n := by
  unfold parseNumCore at h
  split at h
  · exact absurd h (by simp)
  · split at h
    · exact absurd h (by simp)
    · split at h
      · exact absurd h (by simp)
      · simp only [Option.some.injEq, Prod.mk.injEq] at h
        exact ⟨_, h.1.symm⟩

theorem parseNumber_isNum (l : List Char) (v : Json) (r : List Char)
    (h : parseNumber l = some (v, r)) : ∃ n, v = Json.num n := by
  rcases l with _ | ⟨c, rest⟩
  · exact Option.noConfusion h
  · simp only [parseNumber] at h
    by_cases hc : c = '-'
    · rw [if_pos hc] at h; exact parseNumCore_isNum true rest v r h
    · rw [if_neg hc] at h; exact parseNumCore_isNum false (c :: rest) v r h

/-- A parse producing an array value started at `[` and ended at `]`. -/
theorem parseVal_arr_shape (fuel : Nat) (l : List Char) (xs : List Json)
    (r : List Char) (h : parseVal fuel l = some (Json.arr xs, r)) :
    l.head? = some '[' ∧ ∃ p, l = p ++ ']' :: r := by
  rcases fuel with _ | f
  · exact Option.noConfusion h
  rcases l with _ | ⟨c, rest⟩
  · exact Option.noConfusion h
  rw [parseVal.eq_def] at h
  dsimp only at h
  by_cases hn : c = 'n'
  · rw [if_pos hn] at h
    by_cases ht : rest.take 3 = ['u', 'l', 'l']
    · rw [if_pos ht] at h; simp at h
    · rw [if_neg ht] at h; exact Option.noConfusion h
  rw [if_neg hn] at h
  by_cases htt : c = 't'
  · rw [if_pos htt] at h
    by_cases ht : rest.take 3 = ['r', 'u', 'e']
    · rw [if_pos ht] at h; simp at h
    · rw [if_neg ht] at h; exact Option.noConfusion h
  rw [if_neg htt] at h
  by_cases hf : c = 'f'
  · rw [if_pos hf] at h
    by_cases ht : rest.take 4 = ['a', 'l', 's', 'e']
    · rw [if_pos ht] at h; simp at h
    · rw [if_neg ht] at h; exact Option.noConfusion h
  rw [if_neg hf] at h
  by_cases hq : c = dquote
  · rw [if_pos hq] at h
    rcases hsb : strBodyAux [] rest with _ | ⟨s, rr⟩
    · rw [hsb] at h; exact Option.noConfusion h
    · rw [hsb] at h; simp at h
  rw [if_neg hq] at h
  by_cases hbr : c = '['
  · rw [if_pos hbr] at h
    subst hbr
    refine ⟨rfl, ?_⟩
    rcases hl1 : skipWsL rest with _ | ⟨c1, r1⟩
    · rw [hl1] at h; exact Option.noConfusion h
    rw [hl1] at h
    dsimp only at h
    have hr : rest = rest.takeWhile isWsB ++ (c1 :: r1) := by
      rw [← hl1]; exact skipWsL_decomp rest
    by_cases hc1 : c1 = ']'
    · rw [if_pos hc1] at h
      simp only [Option.some.injEq, Prod.mk.injEq] at h
      refine ⟨'[' :: rest.takeWhile isWsB, ?_⟩
      rw [← h.2]
      conv_lhs => rw [hr]
      rw [hc1]
      rfl
    · rw [if_neg hc1] at h
      rcases hpe : parseElems f (c1 :: r1) with _ | ⟨ys, rr⟩
      · rw [hpe] at h; exact Option.noConfusion h
      · rw [hpe] at h
        dsimp only at h
        simp only [Option.some.injEq, Prod.mk.injEq] at h
        obtain ⟨p, hp⟩ := parseElems_ends f (c1 :: r1) ys rr hpe
        refine ⟨'[' :: (rest.takeWhile isWsB ++ p), ?_⟩
        rw [← h.2]
        conv_lhs => rw [hr, hp]
        simp
  rw [if_neg hbr] at h
  by_cases hob : c = lbrace
  · rw [if_pos hob] at h
    rcases hl1 : skipWsL rest with _ | ⟨c1, r1⟩
    · rw [hl1] at h; exact Option.noConfusion h
    rw [hl1] at h
    dsimp only at h
    by_cases hc1 : c1 = rbrace
    · rw [if_pos hc1] at h; simp at h
    · rw [if_neg hc1] at h
      rcases hpm : parseMembers f (c1 :: r1) with _ | ⟨ms, rr⟩
      · rw [hpm] at h; exact Option.noConfusion h
      · rw [hpm] at h; simp at h
  rw [if_neg hob] at h
  by_cases hd : c = '-' ∨ c.isDigit
  · rw [if_pos hd] at h
    obtain ⟨n, hn2⟩ := parseNumber_isNum (c :: rest) (Json.arr xs) r h
    exact absurd hn2 (by simp)
  · rw [if_neg hd] at h; exact Option.noConfusion h

/-- `parseVal` fails on input starting with a backtick. -/
theorem parseVal_backtick (fuel : Nat) (l : List Char) :
    parseVal fuel (backtick :: l) = none := by
  rcases fuel with _ | f
  · rfl
  rw [parseVal.eq_def]
  dsimp only
  rw [if_neg (by decide), if_neg (by decide), if_neg (by decide),
    if_neg (by decide), if_neg (by decide), if_neg (by decide),
    if_neg (by decide)]

/-- A successfully parsed JSON array strips to a string that starts with
`[` and ends with `]` — exactly what the fenced-block scan checks. -/
theorem jsonLoads_arr_bracket (s : String) (xs : List Json)
    (h : jsonLoads s = some (Json.arr xs)) :
    (pyStripL s.data).head? = some '[' ∧
      (pyStripL s.data).getLast? = some ']' := by
  unfold jsonLoads at h
  rcases hp : parseVal (2 * (pyStripL s.data).length + 2) (pyStripL s.data)
    with _ | ⟨v, r⟩
  · rw [hp] at h; exact Option.noConfusion h
  rw [hp] at h
  dsimp only at h
  by_cases hws : skipWsL r = []
  · rw [if_pos hws] at h
    simp only [Option.some.injEq] at h
    subst h
    obtain ⟨hhead, p, hp2⟩ := parseVal_arr_shape _ _ _ _ hp
    have hrall : ∀ x ∈ r, isWsB x := List.dropWhile_eq_nil_iff.mp hws
    have hrnil : r = [] := by
      rcases hre : r with _ | ⟨c0, r0⟩
      · rfl
      · exfalso
        rcases hgl : (c0 :: r0).getLast? with _ | cl
        · exact absurd (List.getLast?_eq_none_iff.mp hgl) (by simp)
        · have hcl_mem : cl ∈ c0 :: r0 := List.mem_of_getLast?_eq_some hgl
          have hcl_ws : isWsB cl := hrall cl (by rw [hre]; exact hcl_mem)
          have hlast : (pyStripL s.data).getLast? = some cl := by
            rw [hp2, hre,
              List.getLast?_append_of_ne_nil p
                (show (']' : Char) :: c0 :: r0 ≠ [] by simp)]
            rw [List.getLast?_cons_cons]
            exact hgl
          exact absurd hcl_ws (by simp [pyStripL_last s.data cl hlast])
    subst hrnil
    refine ⟨hhead, ?_⟩
    rw [hp2]
    exact List.getLast?_concat p
  · rw [if_neg hws] at h; exact Option.noConfusion h

/-! ## Lemmas about the fenced-block extraction -/

def fenceL : List Char := [backtick, backtick, backtick]

def fenceStr : String := String.mk fenceL

/-- A response that wraps `s` in a bare markdown code fence. -/
def wrapFence (s : String) : String :=
  fenceStr ++ "\n" ++ s ++ "\n" ++ fenceStr

theorem dropWhile_append_notp (p : α → Bool) (c : α) (hc : p c = false) :
    ∀ l : List α, (l ++ [c]).dropWhile p = l.dropWhile p ++ [c] := by
  intro l
  induction l with
  | nil => simp [List.dropWhile_cons, hc]
  | cons b t ih =>
    cases hb : p b with
    | true => simpa [List.dropWhile_cons, hb] using ih
    | false => simp [List.dropWhile_cons, hb]

/-- Stripping a list with a non-whitespace head keeps that head. -/
theorem pyStripL_cons_nonws (c : Char) (rest : List Char)
    (hc : isWsB c = false) :
    pyStripL (c :: rest) = c :: (rest.reverse.dropWhile isWsB).reverse := by
  unfold pyStripL
  rw [List.dropWhile_cons, hc]
  simp only [Bool.false_eq_true, if_false, List.reverse_cons]
  rw [dropWhile_append_notp isWsB c hc]
  simp

/-- One non-fence step of the splitter. -/
theorem splitFenceAux_step (acc : List Char) (c : Char) (rest : List Char)
    (hne : ¬(c = backtick ∧ rest.take 2 = [backtick, backtick])) :
    splitFenceAux acc (c :: rest) = splitFenceAux (c :: acc) rest := by
  rcases rest with _ | ⟨d, r2⟩
  · rw [splitFenceAux.eq_def]
  · rcases r2 with _ | ⟨e, r3⟩
    · rw [splitFenceAux.eq_def]
    · rw [splitFenceAux.eq_def]
      dsimp only
      rw [if_neg (by simpa using hne)]

/-- The fence step of the splitter. -/
theorem splitFenceAux_fence (acc : List Char) (rest : List Char) :
    splitFenceAux acc (backtick :: backtick :: backtick :: rest) =
      acc.reverse :: splitFenceAux [] rest := by
  rw [splitFenceAux.eq_def]
  dsimp only
  rw [if_pos ⟨rfl, rfl, rfl⟩]

theorem splitFenceAux_nil (acc : List Char) :
    splitFenceAux acc [] = [acc.reverse] := by
  rw [splitFenceAux.eq_def]

/-- Walking a fence-free block (not ending in a backtick) up to the closing
fence accumulates the whole block as one part. -/
theorem splitFenceAux_walk (l : List Char) (hF : hasFence l = false)
    (hlast : l.getLast? ≠ some backtick) :
    ∀ acc, splitFenceAux acc (l ++ fenceL) = [acc.reverse ++ l, []] := by
  induction l with
  | nil =>
    intro acc
    show splitFenceAux acc (backtick :: backtick :: backtick :: []) = _
    rw [splitFenceAux_fence, splitFenceAux_nil]
    simp
  | cons c t ih =>
    intro acc
    have hstep : ¬(c = backtick ∧ (t ++ fenceL).take 2 = [backtick, backtick]) := by
      rintro ⟨hcb, htake⟩
      rcases t with _ | ⟨d, t2⟩
      · exact hlast (by simp [hcb])
      · rcases t2 with _ | ⟨e, t3⟩
        · simp [fenceL] at htake
          exact hlast (by simp [htake])
        · simp at htake
          have : hasFence (c :: d :: e :: t3) = true := by
            unfold hasFence
            rw [decide_eq_true_iff]
            exact ⟨[], t3, by simp [fenceL, hcb, htake.1, htake.2]⟩
          rw [this] at hF
          exact Bool.noConfusion hF
    rw [List.cons_append, splitFenceAux_step acc c (t ++ fenceL) hstep]
    have hFt : hasFence t = false := by
      cases ht : hasFence t with
      | false => rfl
      | true =>
        exfalso
        unfold hasFence at ht
        rw [decide_eq_true_iff] at ht
        obtain ⟨u, w, huw⟩ := ht
        have : hasFence (c :: t) = true := by
          unfold hasFence
          rw [decide_eq_true_iff]
          exact ⟨c :: u, w, by rw [← huw]; simp⟩
        rw [this] at hF
        exact Bool.noConfusion hF
    have hlt : t.getLast? ≠ some backtick := by
      rcases t with _ | ⟨d, t2⟩
      · simp
      · intro hgl
        exact hlast (by rw [List.getLast?_cons_cons]; exact hgl)
    rw [ih hFt hlt (c :: acc)]
    simp

/-- The padded block `'\n' :: s ++ ['\n']` contains no fence when `s`
does not. -/
theorem hasFence_pad (s : List Char) (h : hasFence s = false) :
    hasFence ('\n' :: s ++ ['\n']) = false := by
  cases hc : hasFence ('\n' :: s ++ ['\n']) with
  | false => rfl
  | true =>
    exfalso
    unfold hasFence at hc
    rw [decide_eq_true_iff] at hc
    obtain ⟨u, w, huw⟩ := hc
    rcases u with _ | ⟨u0, u'⟩
    · -- a fence at the very front would start with the newline
      have hhd := congrArg List.head? huw
      simp [fenceL] at hhd
      exact absurd hhd (by decide)
    · have huw2 := huw
      simp only [List.cons_append] at huw2
      injection huw2 with hu0 hs2
      rcases List.eq_nil_or_concat w with hw | ⟨w0, wl, hw⟩
      · subst hw
        have hs2b : (u' ++ [backtick, backtick]) ++ [backtick] = s ++ ['\n'] := by
          rw [← hs2]
          simp
        have hlasts := congrArg List.getLast? hs2b
        rw [List.getLast?_concat, List.getLast?_concat] at hlasts
        simp at hlasts
        exact absurd hlasts (by decide)
      · subst hw
        have hs3 : (u' ++ [backtick, backtick, backtick] ++ w0) ++ [wl] =
            s ++ ['\n'] := by
          rw [← hs2]
          simp [List.concat_eq_append]
        obtain ⟨hs4, -⟩ := List.append_inj' hs3 (by simp)
        have : hasFence s = true := by
          unfold hasFence
          rw [decide_eq_true_iff]
          exact ⟨u', w0, hs4⟩
        rw [this] at h
        exact Bool.noConfusion h

/-- Splitting a fence-wrapped, fence-free block yields exactly three parts:
empty, the block, empty. -/
theorem splitFenceAux_wrap (s : List Char) (h : hasFence s = false) :
    splitFenceAux [] (fenceL ++ ('\n' :: s ++ ['\n']) ++ fenceL) =
      [[], '\n' :: s ++ ['\n'], []] := by
  have hstart : fenceL ++ ('\n' :: s ++ ['\n']) ++ fenceL =
      backtick :: backtick :: backtick :: (('\n' :: s ++ ['\n']) ++ fenceL) := by
    simp [fenceL]
  rw [hstart, splitFenceAux_fence]
  have hlast : ('\n' :: s ++ ['\n']).getLast? ≠ some backtick := by
    rw [List.getLast?_concat]
    decide
  rw [splitFenceAux_walk ('\n' :: s ++ ['\n']) (hasFence_pad s h) hlast []]
  simp

theorem wrapFence_data (s : String) :
    (wrapFence s).data = fenceL ++ ('\n' :: s.data ++ ['\n']) ++ fenceL := by
  show (fenceStr ++ "\n" ++ s ++ "\n" ++ fenceStr).data = _
  simp [String.data_append, fenceStr]

/-- Stripping the padded block gives the stripped payload. -/
theorem pyStripL_pad (s : List Char) :
    pyStripL ('\n' :: s ++ ['\n']) = pyStripL s := by
  have h1 : ('\n' :: s ++ ['\n'] : List Char) = '\n' :: (s ++ ['\n']) := by simp
  rw [h1, pyStripL_cons_ws '\n' (s ++ ['\n']) (by decide),
    pyStripL_append_ws '\n' s (by decide)]

/-- The extraction fallback applied to a fence-wrapped, fence-free block
whose stripped payload is bracketed returns the stripped payload. -/
theorem extractJsonBlock_wrap (s : String) (hF : hasFence s.data = false)
    (hhead : (pyStripL s.data).head? = some '[')
    (hlast : (pyStripL s.data).getLast? = some ']') :
    extractJsonBlock (wrapFence s) = some (pyStripS s) := by
  unfold extractJsonBlock
  rw [wrapFence_data s]
  have hfw : hasFence (fenceL ++ ('\n' :: s.data ++ ['\n']) ++ fenceL) = true := by
    unfold hasFence
    rw [decide_eq_true_iff]
    exact ⟨[], ('\n' :: s.data ++ ['\n']) ++ fenceL, by simp [fenceL]⟩
  rw [if_pos hfw, splitFenceAux_wrap s.data hF]
  unfold firstBracketPart
  rw [if_neg (by simp [pyStripL])]
  unfold firstBracketPart
  rw [pyStripL_pad s.data, if_pos ⟨hhead, hlast⟩]
  rfl

/-- The wrapped response fails the strict `json.loads` (it starts with a
backtick). -/
theorem jsonLoads_wrapFence_none (s : String) :
    jsonLoads (wrapFence s) = none := by
  unfold jsonLoads
  rw [wrapFence_data s]
  have hcons : fenceL ++ ('\n' :: s.data ++ ['\n']) ++ fenceL =
      backtick :: (backtick :: backtick :: (('\n' :: s.data ++ ['\n']) ++ fenceL)) := by
    simp [fenceL]
  rw [hcons, pyStripL_cons_nonws backtick _ (by decide), parseVal_backtick]

/-- `json.loads` of the stripped text equals `json.loads` of the text. -/
theorem jsonLoads_strip (s : String) :
    jsonLoads (pyStripS s) = jsonLoads s := by
  unfold jsonLoads pyStripS
  rw [show (String.mk (pyStripL s.data)).data = pyStripL s.data from rfl,
    pyStripL_idem]

/-- Core of claim C3: building from the fence-wrapped response equals
building from the bare array response. -/
theorem buildFromResponse_wrapFence (s : String) (items : List Json)
    (hparse : jsonLoads s = some (Json.arr items))
    (hnof : hasFence s.data = false) :
    buildFromResponse (wrapFence s) = buildFromResponse s := by
  obtain ⟨hhead, hlast⟩ := jsonLoads_arr_bracket s items hparse
  unfold buildFromResponse
  rw [jsonLoads_wrapFence_none s, extractJsonBlock_wrap s hnof hhead hlast,
    hparse]
  dsimp only
  rw [jsonLoads_strip s, hparse]

/-! ## Lemmas about the interview loop -/

/-- Number of steps processed before the first `true` cancellation-flag
observation, starting the boundary checks at index `i` with `n` steps
remaining. -/
def freeRun (env : Env) : Nat → Nat → Nat
  | _, 0 => 0
  | i, n + 1 => if env.stopObs i then 0 else freeRun env (i + 1) n + 1

/-- Folding `stepEffect` over a list of (fully processed) steps. -/
def runSteps (S : InterviewSettings) (st : RunOut) (l : List PlanStep) : RunOut :=
  l.foldl (stepEffect S) st

/-- Ledger lines contributed by one processed step. -/
def stepLines (S : InterviewSettings) (step : PlanStep) : List String :=
  renderEntry S.interviewer_name step.question ::
    step.followups.map
      (fun f => renderEntry S.interviewer_name ("(Optional follow-up) " ++ f))

/-- Call-trace events contributed by one processed step. -/
def stepEvents (S : InterviewSettings) (step : PlanStep) : List Ev :=
  Ev.appendCall S.interviewer_name (renderEntry S.interviewer_name step.question) ::
    Ev.speakCall step.question ::
    step.followups.map
      (fun f => Ev.appendCall S.interviewer_name
        (renderEntry S.interviewer_name ("(Optional follow-up) " ++ f)))

theorem followupFold_entries (S : InterviewSettings) (fs : List String) :
    ∀ st : RunOut,
      (fs.foldl (fun a f =>
        appendEntry a S.interviewer_name ("(Optional follow-up) " ++ f)) st) =
      { st with
        entries := st.entries ++ fs.map
          (fun f => renderEntry S.interviewer_name ("(Optional follow-up) " ++ f))
        fileContent :=
          if fs.isEmpty then st.fileContent
          else some (joinNL (st.entries ++ fs.map
            (fun f => renderEntry S.interviewer_name ("(Optional follow-up) " ++ f))))
        events := st.events ++ fs.map
          (fun f => Ev.appendCall S.interviewer_name
            (renderEntry S.interviewer_name ("(Optional follow-up) " ++ f))) } := by
  induction fs with
  | nil => intro st; simp
  | cons f fs ih =>
    intro st
    rw [List.foldl_cons, ih]
    simp [appendEntry, List.append_assoc]
    intro hfs
    subst hfs
    simp

theorem stepEffect_char (S : InterviewSettings) (st : RunOut) (step : PlanStep) :
    stepEffect S st step =
      { st with
        entries := st.entries ++ stepLines S step
        fileContent := some (joinNL (st.entries ++ stepLines S step))
        events := st.events ++ stepEvents S step
        tnotifs := st.tnotifs ++
          [joinNL (st.entries ++ [renderEntry S.interviewer_name step.question])]
        statuses := st.statuses ++ ["Waiting for candidate response…"] } := by
  unfold stepEffect
  dsimp only
  rw [followupFold_entries]
  rcases hfs : step.followups with _ | ⟨f, fs⟩
  · simp [appendEntry, emitTranscript, addEv, emitStatus, stepLines, stepEvents,
      hfs]
  · simp [appendEntry, emitTranscript, addEv, emitStatus, stepLines, stepEvents,
      hfs, List.append_assoc]

theorem interviewLoop_char (S : InterviewSettings) (env : Env)
    (hspeak : ∀ j, env.speakFail j = none) :
    ∀ (steps : List PlanStep) (i : Nat) (st : RunOut),
      interviewLoop S env steps i st =
        (runSteps S st (steps.take (freeRun env i steps.length)),
          if freeRun env i steps.length = steps.length then LoopExit.normal
          else LoopExit.broke) := by
  intro steps
  induction steps with
  | nil =>
    intro i st
    simp [interviewLoop, freeRun, runSteps]
  | cons step rest ih =>
    intro i st
    cases hs : env.stopObs i with
    | true =>
      simp only [interviewLoop, hs, if_true]
      simp [freeRun, hs, runSteps]
    | false =>
      have hone : interviewLoop S env (step :: rest) i st =
          interviewLoop S env rest (i + 1) (stepEffect S st step) := by
        simp only [interviewLoop, hs, hspeak i, stepEffect,
          Bool.false_eq_true, if_false]
      rw [hone, ih (i + 1) (stepEffect S st step)]
      have hfr : freeRun env i (step :: rest).length =
          freeRun env (i + 1) rest.length + 1 := by
        simp [freeRun, hs]
      rw [hfr]
      have htake : (step :: rest).take (freeRun env (i + 1) rest.length + 1) =
          step :: rest.take (freeRun env (i + 1) rest.length) := rfl
      rw [htake]
      have hrs : runSteps S st (step :: rest.take (freeRun env (i + 1) rest.length)) =
          runSteps S (stepEffect S st step) (rest.take (freeRun env (i + 1) rest.length)) := rfl
      rw [hrs]
      congr 1
      by_cases heq : freeRun env (i + 1) rest.length = rest.length
      · simp [heq]
      · simp [heq]

theorem runSteps_entries (S : InterviewSettings) :
    ∀ (l : List PlanStep) (st : RunOut),
      (runSteps S st l).entries = st.entries ++ l.flatMap (stepLines S) := by
  intro l
  induction l with
  | nil => intro st; simp [runSteps]
  | cons step rest ih =>
    intro st
    show (runSteps S (stepEffect S st step) rest).entries = _
    rw [ih, stepEffect_char]
    simp

theorem runSteps_events (S : InterviewSettings) :
    ∀ (l : List PlanStep) (st : RunOut),
      (runSteps S st l).events = st.events ++ l.flatMap (stepEvents S) := by
  intro l
  induction l with
  | nil => intro st; simp [runSteps]
  | cons step rest ih =>
    intro st
    show (runSteps S (stepEffect S st step) rest).events = _
    rw [ih, stepEffect_char]
    simp

theorem runSteps_outcome (S : InterviewSettings) :
    ∀ (l : List PlanStep) (st : RunOut),
      (runSteps S st l).outcome = st.outcome := by
  intro l
  induction l with
  | nil => intro st; rfl
  | cons step rest ih =>
    intro st
    show (runSteps S (stepEffect S st step) rest).outcome = _
    rw [ih, stepEffect_char]

/-- The questions spoken, in order, read off the call trace. -/
def speakTrace (evs : List Ev) : List String :=
  evs.filterMap (fun e =>
    match e with
    | Ev.speakCall q => some q
    | _ => none)

/-- The ledger lines appended under a given speaker, read off the call
trace. -/
def appendTraceOf (speaker : String) (evs : List Ev) : List String :=
  evs.filterMap (fun e =>
    match e with
    | Ev.appendCall sp line => if sp = speaker then some line else none
    | _ => none)

theorem speakTrace_append (a b : List Ev) :
    speakTrace (a ++ b) = speakTrace a ++ speakTrace b :=
  List.filterMap_append _ _ _

theorem appendTraceOf_append (sp : String) (a b : List Ev) :
    appendTraceOf sp (a ++ b) = appendTraceOf sp a ++ appendTraceOf sp b :=
  List.filterMap_append _ _ _

theorem speakTrace_stepEvents (S : InterviewSettings) (step : PlanStep) :
    speakTrace (stepEvents S step) = [step.question] := by
  unfold speakTrace stepEvents
  rw [List.filterMap_cons_none (by rfl), List.filterMap_cons_some (by rfl)]
  congr 1
  induction step.followups with
  | nil => rfl
  | cons f fs _ih => simp [List.filterMap_cons]

theorem speakTrace_flatMap (S : InterviewSettings) (l : List PlanStep) :
    speakTrace (l.flatMap (stepEvents S)) = l.map (fun st => st.question) := by
  induction l with
  | nil => rfl
  | cons step rest ih =>
    rw [List.flatMap_cons, speakTrace_append, speakTrace_stepEvents, ih]
    rfl

theorem appendTraceOf_stepEvents (S : InterviewSettings) (step : PlanStep)
    (sp : String) (hsp : S.interviewer_name ≠ sp) :
    appendTraceOf sp (stepEvents S step) = [] := by
  unfold appendTraceOf stepEvents
  rw [List.filterMap_cons_none (by simp [hsp]),
    List.filterMap_cons_none (by rfl)]
  induction step.followups with
  | nil => rfl
  | cons f fs _ih => simp [List.filterMap_cons, hsp]

theorem appendTraceOf_flatMap (S : InterviewSettings) (l : List PlanStep)
    (sp : String) (hsp : S.interviewer_name ≠ sp) :
    appendTraceOf sp (l.flatMap (stepEvents S)) = [] := by
  induction l with
  | nil => rfl
  | cons step rest ih =>
    rw [List.flatMap_cons, appendTraceOf_append,
      appendTraceOf_stepEvents S step sp hsp, ih]
    rfl

theorem stepEvents_shape (S : InterviewSettings) (step : PlanStep) :
    ∀ e ∈ stepEvents S step,
      (∃ sp ln, e = Ev.appendCall sp ln) ∨ (∃ q, e = Ev.speakCall q) := by
  intro e he
  unfold stepEvents at he
  rw [List.mem_cons, List.mem_cons] at he
  rcases he with rfl | rfl | he
  · exact Or.inl ⟨_, _, rfl⟩
  · exact Or.inr ⟨_, rfl⟩
  · obtain ⟨f, -, hf⟩ := List.mem_map.mp he
    exact Or.inl ⟨_, _, hf.symm⟩

theorem freeRun_le (env : Env) : ∀ (n i : Nat), freeRun env i n ≤ n := by
  intro n
  induction n with
  | zero => intro i; exact Nat.le_refl 0
  | succ n ih =>
    intro i
    unfold freeRun
    by_cases hs : env.stopObs i
    · simp [hs]
    · simp only [hs, Bool.false_eq_true, if_false]
      exact Nat.succ_le_succ (ih (i + 1))

theorem freeRun_all_false (env : Env) (h : ∀ j, env.stopObs j = false) :
    ∀ (n i : Nat), freeRun env i n = n := by
  intro n
  induction n with
  | zero => intro i; rfl
  | succ n ih =>
    intro i
    unfold freeRun
    rw [h i]
    simp [ih (i + 1)]

/-- If the flag is observed set at check `i + k`, at most `k` steps are
processed. -/
theorem freeRun_le_of_stop (env : Env) :
    ∀ (n i k : Nat), env.stopObs (i + k) = true → freeRun env i n ≤ k := by
  intro n
  induction n with
  | zero => intro i k _; exact Nat.zero_le k
  | succ n ih =>
    intro i k hk
    unfold freeRun
    cases hs : env.stopObs i with
    | true => simp
    | false =>
      simp only [Bool.false_eq_true, if_false]
      rcases k with _ | k'
      · rw [Nat.add_zero] at hk
        rw [hk] at hs
        exact Bool.noConfusion hs
      · have : env.stopObs ((i + 1) + k') = true := by
          rw [show (i + 1) + k' = i + (k' + 1) by omega]
          exact hk
        exact Nat.succ_le_succ (ih (i + 1) k' this)

/-! ## Characterizations of the phases after the loop -/

/-- The candidate text produced by the Transcribing stage: the transcription
result, or the placeholder when the capability raised. -/
def transcribeText (env : Env) : String :=
  match env.transcribeResult with
  | .ok t => t
  | .error m => "[Transcription unavailable: " ++ m ++ "]"

def thankYouMsg : String := "Thank you for your time! We'll follow up shortly."

/-- Events of the conclude phase when chat, leave and bridge stop succeed. -/
def concludeEvents (S : InterviewSettings) (env : Env) : List Ev :=
  [Ev.chatCall thankYouMsg, Ev.leaveCall, Ev.bridgeStopCall, Ev.transcribeCall,
   Ev.appendCall S.candidate_name
     (renderEntry S.candidate_name (transcribeText env)),
   Ev.summaryCall]

theorem concludePhase_entries (S : InterviewSettings) (env : Env)
    (st4 : RunOut) (hchat : env.chatFail = none)
    (hleave : env.leaveFail = none) (hbstop : env.bridgeStopFail = none) :
    (concludePhase S env st4).entries =
      st4.entries ++ [renderEntry S.candidate_name (transcribeText env)] := by
  unfold concludePhase
  rw [hchat]
  dsimp only
  rw [hleave]
  dsimp only
  rw [hbstop]
  dsimp only
  rcases hgen : generateOutcome S.llm env.summaryGenResult with e | summ <;>
    simp [addEv, appendEntry, emitTranscript, emitSummary, emitStatus,
      transcribeText]

theorem concludePhase_events (S : InterviewSettings) (env : Env)
    (st4 : RunOut) (hchat : env.chatFail = none)
    (hleave : env.leaveFail = none) (hbstop : env.bridgeStopFail = none) :
    (concludePhase S env st4).events = st4.events ++ concludeEvents S env := by
  unfold concludePhase
  rw [hchat]
  dsimp only
  rw [hleave]
  dsimp only
  rw [hbstop]
  dsimp only
  rcases hgen : generateOutcome S.llm env.summaryGenResult with e | summ <;>
    simp [addEv, appendEntry, emitTranscript, emitSummary, emitStatus,
      transcribeText, concludeEvents, thankYouMsg]

theorem concludePhase_done (S : InterviewSettings) (env : Env)
    (st4 : RunOut) (hchat : env.chatFail = none)
    (hleave : env.leaveFail = none) (hbstop : env.bridgeStopFail = none)
    (summ : String)
    (hsum : generateOutcome S.llm env.summaryGenResult = .ok summ) :
    (concludePhase S env st4).statuses =
        st4.statuses ++ ["Interview complete."] ∧
      (concludePhase S env st4).outcome = st4.outcome := by
  unfold concludePhase
  rw [hchat]
  dsimp only
  rw [hleave]
  dsimp only
  rw [hbstop]
  dsimp only
  rw [hsum]
  dsimp only
  constructor <;>
    simp [addEv, appendEntry, emitTranscript, emitSummary, emitStatus]

/-- The conclude phase when the closing chat message raises: the bridge
stop still runs, the exception propagates, transcription is never
attempted. -/
theorem concludePhase_chatFail (S : InterviewSettings) (env : Env)
    (st4 : RunOut) (m : String) (hchat : env.chatFail = some m) :
    concludePhase S env st4 =
      bridgeStopPropagate env (addEv st4 (Ev.chatCall thankYouMsg))
        (.external m) := by
  unfold concludePhase
  rw [hchat]
  rfl

/-- The conclude phase when `meet.leave()` raises (the chat message
succeeded): the bridge stop still runs, the exception propagates,
transcription is never attempted. -/
theorem concludePhase_leaveFail (S : InterviewSettings) (env : Env)
    (st4 : RunOut) (m : String) (hchat : env.chatFail = none)
    (hleave : env.leaveFail = some m) :
    concludePhase S env st4 =
      bridgeStopPropagate env
        (addEv (addEv st4 (Ev.chatCall thankYouMsg)) Ev.leaveCall)
        (.external m) := by
  unfold concludePhase
  rw [hchat]
  dsimp only
  rw [hleave]
  rfl

/-- The conclude phase when the bridge stop itself raises (chat and leave
succeeded): its exception propagates before transcription. -/
theorem concludePhase_bstopFail (S : InterviewSettings) (env : Env)
    (st4 : RunOut) (m : String) (hchat : env.chatFail = none)
    (hleave : env.leaveFail = none) (hbstop : env.bridgeStopFail = some m) :
    concludePhase S env st4 =
      { addEv (addEv (addEv st4 (Ev.chatCall thankYouMsg)) Ev.leaveCall)
          Ev.bridgeStopCall with outcome := some (.external m) } := by
  unfold concludePhase
  rw [hchat]
  dsimp only
  rw [hleave]
  dsimp only
  rw [hbstop]
  rfl

/-- The state reaching the loop: bridge started, meet connected, status
emitted. -/
def loopStart (st0 : RunOut) : RunOut :=
  emitStatus (addEv (addEv st0 Ev.bridgeStartCall) Ev.connectCall)
    "Connected to Google Meet. Beginning interview…"

/-- The whole interview phase, when bridge start, connect and every speak
succeed: the loop processes its free run and the conclude phase follows. -/
theorem interviewPhase_char (S : InterviewSettings) (env : Env)
    (steps : List PlanStep) (st0 : RunOut)
    (hbs : env.bridgeStartFail = none) (hconn : env.connectFail = none)
    (hspeak : ∀ j, env.speakFail j = none) :
    interviewPhase S env steps st0 =
      concludePhase S env
        (runSteps S (loopStart st0)
          (steps.take (freeRun env 0 steps.length))) := by
  unfold interviewPhase
  rw [hbs]
  dsimp only
  rw [hconn]
  dsimp only
  rw [interviewLoop_char S env hspeak steps 0 _]
  by_cases hfr : freeRun env 0 steps.length = steps.length
  · rw [if_pos hfr]
    rfl
  · rw [if_neg hfr]
    rfl

/-! ## Small lemmas for the ledger, the plan size and the step cursor -/

theorem tmAppendAll_char (ops : List (String × String)) :
    ∀ ts : TState,
      tmAppendAll ts ops =
        if ops.isEmpty then ts
        else
          { entries := ts.entries ++ ops.map (fun p => renderEntry p.1 p.2)
            file := some (joinNL (ts.entries ++
              ops.map (fun p => renderEntry p.1 p.2))) } := by
  induction ops with
  | nil => intro ts; simp [tmAppendAll]
  | cons op rest ih =>
    intro ts
    show tmAppendAll (tmAppend ts op.1 op.2) rest = _
    rw [ih]
    rcases hrest : rest with _ | ⟨op2, rest2⟩
    · simp [tmAppend]
    · simp [tmAppend, List.append_assoc]

theorem stepsOfItems_length (items : List Json) :
    ∀ (idx : Nat) (sts : List InterviewStep),
      stepsOfItems idx items = .ok sts → sts.length = items.length := by
  induction items with
  | nil =>
    intro idx sts h
    simp only [stepsOfItems] at h
    cases h
    rfl
  | cons item rest ih =>
    intro idx sts h
    simp only [stepsOfItems] at h
    rcases hmk : mkStep idx item with e | st
    · rw [hmk] at h; exact Except.noConfusion h
    · rw [hmk] at h
      rcases hrest : stepsOfItems (idx + 1) rest with e | sts2
      · rw [hrest] at h; exact Except.noConfusion h
      · rw [hrest] at h
        cases h
        simp [ih (idx + 1) sts2 hrest]

/-- Characterization of `n` calls to `next_step` starting at a valid
cursor position. -/
theorem runNext_char (steps : List InterviewStep) :
    ∀ (n i : Nat), i ≤ steps.length →
      runNext n { steps := steps, currentIndex := i } =
        (((steps.drop i).take n).map some ++
            List.replicate (n - (steps.length - i)) none,
          { steps := steps, currentIndex := min (i + n) steps.length }) := by
  intro n
  induction n with
  | zero =>
    intro i hi
    simp [runNext, Nat.min_eq_left hi]
  | succ n ih =>
    intro i hi
    by_cases hlt : i < steps.length
    · have hstep : nextStep { steps := steps, currentIndex := i } =
          (some (steps.get ⟨i, hlt⟩),
            { steps := steps, currentIndex := i + 1 }) := by
        unfold nextStep
        rw [dif_pos hlt]
      show (let (o, st1) := nextStep { steps := steps, currentIndex := i };
        let (os, st2) := runNext n st1; (o :: os, st2)) = _
      rw [hstep]
      dsimp only
      rw [ih (i + 1) hlt]
      dsimp only
      rw [Prod.mk.injEq]
      refine ⟨?_, ?_⟩
      · have hdrop : steps.drop i = steps.get ⟨i, hlt⟩ :: steps.drop (i + 1) := by
          rw [List.drop_eq_getElem_cons hlt, List.get_eq_getElem]
        rw [hdrop, List.take_succ_cons, List.map_cons, List.cons_append]
        have hk : n - (steps.length - (i + 1)) = n + 1 - (steps.length - i) := by
          omega
        rw [hk]
      · have harith : i + 1 + n = i + (n + 1) := by omega
        rw [harith]
    · have hi2 : i = steps.length := Nat.le_antisymm hi (Nat.not_lt.mp hlt)
      have hstep : nextStep { steps := steps, currentIndex := i } =
          (none, { steps := steps, currentIndex := i }) := by
        unfold nextStep
        rw [dif_neg hlt]
      show (let (o, st1) := nextStep { steps := steps, currentIndex := i };
        let (os, st2) := runNext n st1; (o :: os, st2)) = _
      rw [hstep]
      dsimp only
      rw [ih i hi]
      subst hi2
      simp only [List.drop_length, List.take_nil, List.map_nil,
        List.nil_append, Nat.sub_self, Nat.sub_zero]
      rw [Prod.mk.injEq]
      refine ⟨rfl, ?_⟩
      rw [Nat.min_eq_right (Nat.le_add_right _ _),
        Nat.min_eq_right (Nat.le_add_right _ _)]

/-! ## Concrete fixtures used by witnesses and counterexamples -/

def run0 : RunOut := {}

def sampleSettings : InterviewSettings :=
  { meeting_url := "https://meet.example/abc"
    candidate_name := "Cand"
    interviewer_name := "Alex"
    cv_path := "cv.pdf"
    llm := { provider := "openai", model := "gpt-4o", api_key := some "k",
             extra := [] }
    transcript_path := "out/transcript.txt"
    audio_output_path := "out/audio.wav"
    video_output_path := "out/video"
    question_voice := "en-US-Wavenet-D"
    capture_loopback_device := none
    virtual_microphone_device := none
    interview_outline := none
    warmup_prompt := none }

def envAllOk : Env :=
  { stopObs := fun _ => false
    extractResult := .ok "cv text"
    buildGenResult := .ok "response"
    planResult := .ok [{ title := "Welcome", question := "Q1", followups := ["f1"] }]
    bridgeStartFail := none
    connectFail := none
    speakFail := fun _ => none
    chatFail := none
    leaveFail := none
    bridgeStopFail := none
    transcribeResult := .ok "answer"
    summaryGenResult := .ok "summary" }

def step1 : PlanStep := { title := "Welcome", question := "Q1", followups := ["f1"] }

/-- The single step `build` makes from the item `\x7b\x7d`. -/
def emptyItemStep : InterviewStep :=
  { title := .str "Step 1", question := .str "", followups := .arr [] }

/-! ## Claim C3 -/

/-- C3 counterexample: `"[\x7b\x7d]"` is a valid plan array (strict parse
succeeds and build returns one step), but wrapping it in the most common
form of fenced code block — one carrying the `json` language tag — makes
`build` fail with the plan-parse error instead of producing the same
StepPlan: the tagged segment strips to text starting with `json`, not `[`,
so the fallback scan rejects it.  This refutes the claim as stated for
fenced blocks with an info string. -/
theorem claim_C3_counterexample :
    jsonLoads "[\x7b\x7d]" = some (Json.arr [Json.obj []]) ∧
      buildFromResponse "[\x7b\x7d]" = .ok [emptyItemStep] ∧
      buildFromResponse "\x60\x60\x60json\n[\x7b\x7d]\n\x60\x60\x60" =
        .error FlowErr.planParse := by
  refine ⟨rfl, rfl, ?_⟩
  have h1 : jsonLoads "\x60\x60\x60json\n[\x7b\x7d]\n\x60\x60\x60" = none := rfl
  have h2 : extractJsonBlock "\x60\x60\x60json\n[\x7b\x7d]\n\x60\x60\x60" = none := by
    simp [extractJsonBlock, hasFence, splitFenceAux, firstBracketPart,
      pyStripL, backtick, isWsB]
  unfold buildFromResponse
  rw [h1, h2]

/-- C3 (amended): for every response that is a valid plan array wrapped in
a *bare* fenced code block (no info string on the fence, and no fence
inside the array text), `build` produces the same StepPlan as it would on
the unwrapped array. -/
theorem claim_C3_fenced_equiv (s : String) (items : List Json)
    (hparse : jsonLoads s = some (Json.arr items))
    (hnof : hasFence s.data = false) :
    buildFromResponse (wrapFence s) = buildFromResponse s :=
  buildFromResponse_wrapFence s items hparse hnof

/-- Witness for C3 (amended) at the response `"[\x7b\x7d]"`. -/
theorem claim_C3_fenced_equiv_witness :
    jsonLoads "[\x7b\x7d]" = some (Json.arr [Json.obj []]) ∧
      hasFence "[\x7b\x7d]".data = false ∧
      buildFromResponse (wrapFence "[\x7b\x7d]") = buildFromResponse "[\x7b\x7d]" :=
  ⟨rfl, by decide, claim_C3_fenced_equiv "[\x7b\x7d]" [Json.obj []] rfl (by decide)⟩

/-! ## Claim C5 -/

/-- C5: after any non-empty sequence of `append(speaker, text)` calls on a
fresh ledger, the on-disk file content equals the newline join, in append
order, of the entries rendered `speaker ++ ": " ++ strip text`; the file
always holds the full rendering (it is rewritten whole on every append). -/
theorem claim_C5_ledger_roundtrip (ops : List (String × String))
    (h : ops ≠ []) :
    (tmAppendAll tsInit ops).file =
        some (joinNL (ops.map (fun p => p.1 ++ ": " ++ pyStripS p.2))) ∧
      (tmAppendAll tsInit ops).entries =
        ops.map (fun p => p.1 ++ ": " ++ pyStripS p.2) := by
  rw [tmAppendAll_char]
  rw [if_neg (by simp [h])]
  exact ⟨rfl, rfl⟩

/-- Witness for C5 at two concrete appends. -/
theorem claim_C5_ledger_roundtrip_witness :
    (tmAppendAll tsInit [("A", " hi "), ("B", "yo")]).file =
      some "A: hi\nB: yo" := by
  have h := (claim_C5_ledger_roundtrip [("A", " hi "), ("B", "yo")]
    (by decide)).1
  rw [h]
  rfl

/-! ## Claim C8 -/

/-- C8 counterexample: the response `"[]"` parses as a plan array and
`build` returns successfully — with an *empty* StepPlan.  The code never
checks non-emptiness, refuting "always non-empty on success". -/
theorem claim_C8_counterexample :
    buildFromResponse "[]" = .ok ([] : List InterviewStep) := rfl

/-- C8 (amended): on a response whose strict parse yields a plan array, a
successful `build` returns one step per array item, so the StepPlan is
non-empty exactly when the array is; the empty array gives a successful
empty plan. -/
theorem claim_C8_plan_size (raw : String) (items : List Json)
    (steps : List InterviewStep)
    (hparse : jsonLoads raw = some (Json.arr items))
    (hok : buildFromResponse raw = .ok steps) :
    steps.length = items.length := by
  unfold buildFromResponse at hok
  rw [hparse] at hok
  dsimp only at hok
  unfold stepsOfData at hok
  dsimp only [pyIterate] at hok
  exact stepsOfItems_length items 0 steps hok

/-- Witness for C8 (amended) at the one-item response `"[\x7b\x7d]"`. -/
theorem claim_C8_plan_size_witness :
    jsonLoads "[\x7b\x7d]" = some (Json.arr [Json.obj []]) ∧
      buildFromResponse "[\x7b\x7d]" = .ok [emptyItemStep] ∧
      ([emptyItemStep].length = [Json.obj []].length) :=
  ⟨rfl, rfl,
    claim_C8_plan_size "[\x7b\x7d]" [Json.obj []] [emptyItemStep] rfl rfl⟩

/-! ## Claim C9 -/

/-- The state `SystemAudioRecorder.stop` leaves behind: `_running`
cleared, `_stream` closed and dropped; `_thread` is only joined, never
cleared. -/
def stoppedOf (st : RecorderState) : RecorderState :=
  { running := false, stream := none, thread := st.thread }

/-- C9: `AudioBridge.stop` never raises (it returns `.ok` on *every*
recorder state, because the stream/thread teardown is guarded by
`if self._stream:` / `if self._thread and ...`), it is safe before
`start` (on the freshly constructed state it returns that same state),
and it is idempotent: re-stopping a stopped state returns the same
stopped state. -/
theorem claim_C9_stop_idempotent :
    (∀ st : RecorderState, bridgeStopFn st = .ok (stoppedOf st)) ∧
      (∀ st : RecorderState, bridgeStopFn (stoppedOf st) = .ok (stoppedOf st)) ∧
      bridgeStopFn recorderInit = .ok recorderInit :=
  ⟨fun _ => rfl, fun _ => rfl, rfl⟩

/-! ## Claim C10 -/

/-- C10: after a successful `build` of `N` steps, `N` calls to `next_step`
return the steps in index order; every later call returns `none` and
leaves the state (steps and cursor) unchanged; and a successful build
resets the cursor to 0, so the first call after a re-build returns the
head of the new plan. -/
theorem claim_C10_cursor (st : FlowState) (raw : String) (st0 : FlowState)
    (hbuild : buildApply st raw = .ok st0) :
    ((runNext st0.steps.length st0).1 = st0.steps.map some ∧
        (runNext st0.steps.length st0).2 =
          { steps := st0.steps, currentIndex := st0.steps.length }) ∧
      (∀ m, (runNext (st0.steps.length + m) st0).1 =
          st0.steps.map some ++ List.replicate m none ∧
        (runNext (st0.steps.length + m) st0).2 =
          { steps := st0.steps, currentIndex := st0.steps.length }) ∧
      st0.currentIndex = 0 ∧
      (nextStep st0).1 = st0.steps.head? := by
  have hst0 : ∃ bsteps, st0 = { steps := bsteps, currentIndex := 0 } := by
    unfold buildApply at hbuild
    rcases hbr : buildFromResponse raw with e | bsteps
    · rw [hbr] at hbuild; exact Except.noConfusion hbuild
    · rw [hbr] at hbuild
      dsimp only at hbuild
      cases hbuild
      exact ⟨bsteps, rfl⟩
  obtain ⟨bsteps, rfl⟩ := hst0
  dsimp only
  refine ⟨?_, ?_, rfl, ?_⟩
  · have h := runNext_char bsteps bsteps.length 0 (Nat.zero_le _)
    rw [h]
    constructor
    · simp
    · simp
  · intro m
    have h := runNext_char bsteps (bsteps.length + m) 0 (Nat.zero_le _)
    rw [h]
    constructor
    · simp only [List.drop_zero]
      rw [List.take_of_length_le (Nat.le_add_right _ _)]
      have hm : bsteps.length + m - (bsteps.length - 0) = m := by omega
      rw [hm]
    · have hmin : (0 + (bsteps.length + m)) ⊓ bsteps.length = bsteps.length := by
        rw [Nat.zero_add]
        exact Nat.min_eq_right (Nat.le_add_right _ _)
      rw [hmin]
  · rcases bsteps with _ | ⟨s1, rest⟩
    · unfold nextStep
      rw [dif_neg (by simp)]
      rfl
    · unfold nextStep
      rw [dif_pos (by simp)]
      rfl

/-- Witness for C10 at a concrete one-step build. -/
theorem claim_C10_cursor_witness :
    buildApply { steps := [], currentIndex := 5 } "[\x7b\x7d]" =
        .ok { steps := [emptyItemStep], currentIndex := 0 } ∧
      (runNext 1 { steps := [emptyItemStep], currentIndex := 0 }).1 =
        [some emptyItemStep] := by
  have h := claim_C10_cursor { steps := [], currentIndex := 5 } "[\x7b\x7d]"
    { steps := [emptyItemStep], currentIndex := 0 } rfl
  exact ⟨rfl, h.1.1⟩

/-! ## Support lemmas for the controller claims -/

theorem speakTrace_concludeEvents (S : InterviewSettings) (env : Env) :
    speakTrace (concludeEvents S env) = [] := rfl

theorem appendTraceOf_concludeEvents (S : InterviewSettings) (env : Env) :
    appendTraceOf S.candidate_name (concludeEvents S env) =
      [renderEntry S.candidate_name (transcribeText env)] := by
  simp [appendTraceOf, concludeEvents, List.filterMap_cons]

theorem loopStart_run0_events :
    (loopStart run0).events = [Ev.bridgeStartCall, Ev.connectCall] := rfl

theorem loopStart_run0_entries : (loopStart run0).entries = [] := rfl

theorem transcribeCall_not_in_stepEvents (S : InterviewSettings)
    (l : List PlanStep) : Ev.transcribeCall ∉ l.flatMap (stepEvents S) := by
  intro h
  obtain ⟨step, -, hmem⟩ := List.mem_flatMap.mp h
  rcases stepEvents_shape S step _ hmem with ⟨sp, ln, he⟩ | ⟨q, he⟩ <;>
    exact Ev.noConfusion he

theorem bridgeStopPropagate_events (env : Env) (st : RunOut) (e : RunErr) :
    (bridgeStopPropagate env st e).events = st.events ++ [Ev.bridgeStopCall] := by
  unfold bridgeStopPropagate
  rcases env.bridgeStopFail <;> simp [addEv]

theorem bridgeStopPropagate_outcome (env : Env) (st : RunOut) (e : RunErr) :
    ∃ e2, (bridgeStopPropagate env st e).outcome = some e2 := by
  unfold bridgeStopPropagate
  rcases env.bridgeStopFail <;> exact ⟨_, rfl⟩

/-! ## Claim C1 -/

/-- C1 counterexample: with `stop()` effective before step 0 of a 1-step
plan (`k = 0 < N = 1`), the loop indeed processes nothing — but the
session then runs the identical concluding/transcribing/summarizing path
and its final status notification is the same `"Interview complete."`
emitted by the uncancelled run.  The code records no `Cancelled` terminal
state distinct from completion, refuting "the terminal state is
`Cancelled`, never `Completed`". -/
theorem claim_C1_counterexample :
    speakTrace (interviewPhase sampleSettings
        { envAllOk with stopObs := fun _ => true } [step1] run0).events = [] ∧
      (interviewPhase sampleSettings { envAllOk with stopObs := fun _ => true }
        [step1] run0).statuses.getLast? = some "Interview complete." ∧
      (interviewPhase sampleSettings { envAllOk with stopObs := fun _ => true }
          [step1] run0).statuses.getLast? =
        (interviewPhase sampleSettings envAllOk [step1] run0).statuses.getLast? := by
  refine ⟨rfl, rfl, rfl⟩

/-- C1 (amended): if `stop()` is observed set at the boundary check of
step `k < N` (the flag is monotone, so this holds when stop was called
before the loop reached step `k`), the loop terminates at or before step
`k+1`: some `m ≤ k` steps are processed (their questions spoken in index
order) and no later step is touched.  The session then proceeds through
the normal teardown and, absent failures, ends with the same final
`"Interview complete."` status as a completed run — no distinct
`Cancelled` terminal state exists in the code. -/
theorem claim_C1_cancel_cutoff (S : InterviewSettings) (env : Env)
    (steps : List PlanStep) (k : Nat) (hk : k < steps.length)
    (hstop : env.stopObs k = true)
    (hbs : env.bridgeStartFail = none) (hconn : env.connectFail = none)
    (hspeak : ∀ j, env.speakFail j = none)
    (hchat : env.chatFail = none) (hleave : env.leaveFail = none)
    (hbstop : env.bridgeStopFail = none)
    (summ : String)
    (hsum : generateOutcome S.llm env.summaryGenResult = .ok summ) :
    (∃ m, m ≤ k ∧
        speakTrace (interviewPhase S env steps run0).events =
          (steps.take m).map (fun st => st.question)) ∧
      (interviewPhase S env steps run0).statuses.getLast? =
        some "Interview complete." := by
  rw [interviewPhase_char S env steps run0 hbs hconn hspeak]
  constructor
  · refine ⟨freeRun env 0 steps.length, ?_, ?_⟩
    · exact freeRun_le_of_stop env steps.length 0 k (by simpa using hstop)
    · rw [concludePhase_events _ _ _ hchat hleave hbstop, speakTrace_append,
        runSteps_events, speakTrace_append, speakTrace_flatMap,
        speakTrace_concludeEvents, loopStart_run0_events]
      simp [speakTrace]
  · obtain ⟨hst, -⟩ := concludePhase_done S env _ hchat hleave hbstop summ hsum
    rw [hst, List.getLast?_concat]

/-- Witness for C1 (amended): stop observed from the very first boundary
check of a 1-step plan. -/
theorem claim_C1_cancel_cutoff_witness :
    (∃ m, m ≤ 0 ∧
        speakTrace (interviewPhase sampleSettings
          { envAllOk with stopObs := fun _ => true } [step1] run0).events =
          (([step1].take m).map (fun st => st.question))) ∧
      (interviewPhase sampleSettings { envAllOk with stopObs := fun _ => true }
        [step1] run0).statuses.getLast? = some "Interview complete." :=
  claim_C1_cancel_cutoff sampleSettings
    { envAllOk with stopObs := fun _ => true } [step1] 0 (by decide) rfl rfl rfl
    (fun _ => rfl) rfl rfl rfl "summary" rfl

/-! ## Claim C2 -/

/-- C2 counterexample: with the closing chat message failing, the bridge
stop still runs (the `finally`), but the exception propagates: the
Transcribing stage is never entered and the worker ends with the error —
refuting "a failure in either does not prevent the session from
proceeding to the Transcribing stage". -/
theorem claim_C2_counterexample :
    Ev.bridgeStopCall ∈ (interviewPhase sampleSettings
        { envAllOk with chatFail := some "boom" } [] run0).events ∧
      Ev.transcribeCall ∉ (interviewPhase sampleSettings
        { envAllOk with chatFail := some "boom" } [] run0).events ∧
      (interviewPhase sampleSettings { envAllOk with chatFail := some "boom" }
        [] run0).outcome = some (RunErr.external "boom") := by
  refine ⟨by decide, by decide, rfl⟩

/-- C2 (amended): the two teardown actions are not both best-effort.  A
failure in the closing-message/leave action — whether `send_chat_message`
or `leave` raises — still lets the Audio Bridge stop run (it sits in a
`finally` block), and a failure in the bridge stop happens after the
closing message and leave already ran — so neither failure prevents the
*other* action from running.  But every such failure propagates out of
the worker: the session never reaches the Transcribing stage. -/
theorem claim_C2_teardown (S : InterviewSettings) (env : Env)
    (steps : List PlanStep)
    (hbs : env.bridgeStartFail = none) (hconn : env.connectFail = none)
    (hspeak : ∀ j, env.speakFail j = none) :
    (∀ m, env.chatFail = some m →
        Ev.bridgeStopCall ∈ (interviewPhase S env steps run0).events ∧
          Ev.transcribeCall ∉ (interviewPhase S env steps run0).events ∧
          ∃ e, (interviewPhase S env steps run0).outcome = some e) ∧
      (∀ m, env.chatFail = none → env.leaveFail = some m →
        (Ev.chatCall thankYouMsg ∈ (interviewPhase S env steps run0).events ∧
            Ev.bridgeStopCall ∈ (interviewPhase S env steps run0).events) ∧
          Ev.transcribeCall ∉ (interviewPhase S env steps run0).events ∧
          ∃ e, (interviewPhase S env steps run0).outcome = some e) ∧
      (∀ m, env.chatFail = none → env.leaveFail = none →
          env.bridgeStopFail = some m →
        (Ev.chatCall thankYouMsg ∈ (interviewPhase S env steps run0).events ∧
            Ev.leaveCall ∈ (interviewPhase S env steps run0).events) ∧
          Ev.transcribeCall ∉ (interviewPhase S env steps run0).events ∧
          (interviewPhase S env steps run0).outcome =
            some (RunErr.external m)) := by
  refine ⟨?_, ?_, ?_⟩
  · intro m hchat
    rw [interviewPhase_char S env steps run0 hbs hconn hspeak,
      concludePhase_chatFail S env _ m hchat]
    have hev : (bridgeStopPropagate env
        (addEv (runSteps S (loopStart run0)
          (steps.take (freeRun env 0 steps.length))) (Ev.chatCall thankYouMsg))
        (.external m)).events =
        (runSteps S (loopStart run0)
          (steps.take (freeRun env 0 steps.length))).events ++
          [Ev.chatCall thankYouMsg] ++ [Ev.bridgeStopCall] := by
      rw [bridgeStopPropagate_events]
      simp [addEv]
    refine ⟨?_, ?_, bridgeStopPropagate_outcome env _ _⟩
    · rw [hev]
      simp
    · rw [hev, runSteps_events, loopStart_run0_events]
      intro hmem
      simp only [List.append_assoc, List.mem_append] at hmem
      rcases hmem with h | h | h | h
      · exact absurd h (by decide)
      · exact transcribeCall_not_in_stepEvents S _ h
      · exact absurd h (by decide)
      · exact absurd h (by decide)
  · intro m hchat hleave
    rw [interviewPhase_char S env steps run0 hbs hconn hspeak,
      concludePhase_leaveFail S env _ m hchat hleave]
    have hev : (bridgeStopPropagate env
        (addEv (addEv (runSteps S (loopStart run0)
            (steps.take (freeRun env 0 steps.length)))
          (Ev.chatCall thankYouMsg)) Ev.leaveCall)
        (.external m)).events =
        (runSteps S (loopStart run0)
          (steps.take (freeRun env 0 steps.length))).events ++
          [Ev.chatCall thankYouMsg] ++ [Ev.leaveCall] ++
          [Ev.bridgeStopCall] := by
      rw [bridgeStopPropagate_events]
      simp [addEv]
    refine ⟨⟨?_, ?_⟩, ?_, bridgeStopPropagate_outcome env _ _⟩
    · rw [hev]
      simp
    · rw [hev]
      simp
    · rw [hev, runSteps_events, loopStart_run0_events]
      intro hmem
      simp only [List.append_assoc, List.mem_append] at hmem
      rcases hmem with h | h | h | h | h
      · exact absurd h (by decide)
      · exact transcribeCall_not_in_stepEvents S _ h
      · exact absurd h (by decide)
      · exact absurd h (by decide)
      · exact absurd h (by decide)
  · intro m h1 h2 h3
    rw [interviewPhase_char S env steps run0 hbs hconn hspeak,
      concludePhase_bstopFail S env _ m h1 h2 h3]
    refine ⟨⟨?_, ?_⟩, ?_, rfl⟩
    · simp [addEv]
    · simp [addEv]
    · show Ev.transcribeCall ∉ _
      simp only [addEv]
      rw [runSteps_events, loopStart_run0_events]
      intro hmem
      simp only [List.append_assoc, List.mem_append] at hmem
      rcases hmem with h | h | h | h | h
      · exact absurd h (by decide)
      · exact transcribeCall_not_in_stepEvents S _ h
      · exact absurd h (by decide)
      · exact absurd h (by decide)
      · exact absurd h (by decide)

/-- Witness for C2 (amended), exercising all three failing-teardown
branches: chat failure, leave failure, bridge-stop failure. -/
theorem claim_C2_teardown_witness :
    (Ev.bridgeStopCall ∈ (interviewPhase sampleSettings
        { envAllOk with chatFail := some "chat down" } [step1] run0).events ∧
      Ev.transcribeCall ∉ (interviewPhase sampleSettings
        { envAllOk with chatFail := some "chat down" } [step1] run0).events ∧
      ∃ e, (interviewPhase sampleSettings
        { envAllOk with chatFail := some "chat down" } [step1] run0).outcome =
          some e) ∧
    ((Ev.chatCall thankYouMsg ∈ (interviewPhase sampleSettings
          { envAllOk with leaveFail := some "leave down" } [step1]
          run0).events ∧
        Ev.bridgeStopCall ∈ (interviewPhase sampleSettings
          { envAllOk with leaveFail := some "leave down" } [step1]
          run0).events) ∧
      Ev.transcribeCall ∉ (interviewPhase sampleSettings
        { envAllOk with leaveFail := some "leave down" } [step1]
        run0).events ∧
      ∃ e, (interviewPhase sampleSettings
        { envAllOk with leaveFail := some "leave down" } [step1]
        run0).outcome = some e) ∧
    ((Ev.chatCall thankYouMsg ∈ (interviewPhase sampleSettings
          { envAllOk with bridgeStopFail := some "stop down" } [step1]
          run0).events ∧
        Ev.leaveCall ∈ (interviewPhase sampleSettings
          { envAllOk with bridgeStopFail := some "stop down" } [step1]
          run0).events) ∧
      Ev.transcribeCall ∉ (interviewPhase sampleSettings
        { envAllOk with bridgeStopFail := some "stop down" } [step1]
        run0).events ∧
      (interviewPhase sampleSettings
          { envAllOk with bridgeStopFail := some "stop down" } [step1]
          run0).outcome = some (RunErr.external "stop down")) :=
  ⟨(claim_C2_teardown sampleSettings
      { envAllOk with chatFail := some "chat down" } [step1] rfl rfl
      (fun _ => rfl)).1 "chat down" rfl,
    (claim_C2_teardown sampleSettings
      { envAllOk with leaveFail := some "leave down" } [step1] rfl rfl
      (fun _ => rfl)).2.1 "leave down" rfl rfl,
    (claim_C2_teardown sampleSettings
      { envAllOk with bridgeStopFail := some "stop down" } [step1] rfl rfl
      (fun _ => rfl)).2.2 "stop down" rfl rfl rfl⟩

/-! ## Claim C4 -/

/-- C4: with no cancellation observed and no collaborator failure, the
loop processes every step in index order (the questions are spoken in
plan order), and the final ledger is exactly: for each step, its question
entry followed by its follow-up annotation entries — all appended under
the interviewer's name — then the single candidate entry appended after
the loop. -/
theorem claim_C4_ledger_order (S : InterviewSettings) (env : Env)
    (steps : List PlanStep) (hN : 0 < steps.length)
    (hnostop : ∀ j, env.stopObs j = false)
    (hbs : env.bridgeStartFail = none) (hconn : env.connectFail = none)
    (hspeak : ∀ j, env.speakFail j = none)
    (hchat : env.chatFail = none) (hleave : env.leaveFail = none)
    (hbstop : env.bridgeStopFail = none) :
    (interviewPhase S env steps run0).entries =
        steps.flatMap (stepLines S) ++
          [renderEntry S.candidate_name (transcribeText env)] ∧
      speakTrace (interviewPhase S env steps run0).events =
        steps.map (fun st => st.question) := by
  rw [interviewPhase_char S env steps run0 hbs hconn hspeak,
    freeRun_all_false env hnostop steps.length 0, List.take_length]
  constructor
  · rw [concludePhase_entries _ _ _ hchat hleave hbstop, runSteps_entries,
      loopStart_run0_entries]
    simp
  · rw [concludePhase_events _ _ _ hchat hleave hbstop, speakTrace_append,
      runSteps_events, speakTrace_append, speakTrace_flatMap,
      speakTrace_concludeEvents, loopStart_run0_events]
    simp [speakTrace]

/-- Witness for C4 at a 1-step plan with a follow-up. -/
theorem claim_C4_ledger_order_witness :
    (interviewPhase sampleSettings envAllOk [step1] run0).entries =
        ["Alex: Q1", "Alex: (Optional follow-up) f1", "Cand: answer"] ∧
      speakTrace (interviewPhase sampleSettings envAllOk [step1] run0).events =
        ["Q1"] := by
  have h := claim_C4_ledger_order sampleSettings envAllOk [step1] (by decide)
    (fun _ => rfl) rfl rfl (fun _ => rfl) rfl rfl rfl
  exact ⟨by rw [h.1]; rfl, by rw [h.2]; rfl⟩

/-! ## Claim C6 -/

/-- C6: when the transcription capability raises (and the session reached
the Transcribing stage), the session does not abort: exactly one entry is
appended under the candidate's label, and it is the placeholder
`[Transcription unavailable: …]`; the Summarizing stage is still
entered. -/
theorem claim_C6_transcribe_fallback (S : InterviewSettings) (env : Env)
    (steps : List PlanStep) (msg : String)
    (hne : S.interviewer_name ≠ S.candidate_name)
    (htr : env.transcribeResult = .error msg)
    (hbs : env.bridgeStartFail = none) (hconn : env.connectFail = none)
    (hspeak : ∀ j, env.speakFail j = none)
    (hchat : env.chatFail = none) (hleave : env.leaveFail = none)
    (hbstop : env.bridgeStopFail = none) :
    appendTraceOf S.candidate_name
        (interviewPhase S env steps run0).events =
        [renderEntry S.candidate_name
          ("[Transcription unavailable: " ++ msg ++ "]")] ∧
      Ev.summaryCall ∈ (interviewPhase S env steps run0).events := by
  rw [interviewPhase_char S env steps run0 hbs hconn hspeak,
    concludePhase_events _ _ _ hchat hleave hbstop]
  constructor
  · rw [appendTraceOf_append, runSteps_events, appendTraceOf_append,
      appendTraceOf_flatMap S _ _ hne, appendTraceOf_concludeEvents,
      loopStart_run0_events]
    simp [appendTraceOf, transcribeText, htr]
  · simp [concludeEvents]

/-- Witness for C6: a failing transcription on a 1-step run. -/
theorem claim_C6_transcribe_fallback_witness :
    appendTraceOf sampleSettings.candidate_name (interviewPhase sampleSettings
        { envAllOk with transcribeResult := .error "whisper missing" }
        [step1] run0).events =
        ["Cand: [Transcription unavailable: whisper missing]"] ∧
      Ev.summaryCall ∈ (interviewPhase sampleSettings
        { envAllOk with transcribeResult := .error "whisper missing" }
        [step1] run0).events := by
  have h := claim_C6_transcribe_fallback sampleSettings
    { envAllOk with transcribeResult := .error "whisper missing" } [step1]
    "whisper missing" (by decide) rfl rfl rfl (fun _ => rfl) rfl rfl rfl
  exact ⟨by rw [h.1]; rfl, h.2⟩

/-! ## Claim C7 -/

/-- C7: with an empty or missing credential in the provider configuration
(and CV extraction succeeding), the background run fails with the
`LLMClientError` raised by the first generation call in the flow build —
before any remote-session connection is attempted: the call trace is
exactly extraction followed by the generation attempt. -/
theorem claim_C7_missing_key (S : InterviewSettings) (env : Env) (cv : String)
    (hkey : keyMissing S.llm.api_key = true)
    (hcv : env.extractResult = .ok cv) :
    (asyncRun S env).events = [Ev.extractCall, Ev.generateCall] ∧
      (∃ m, (asyncRun S env).outcome = some (RunErr.llmError m)) ∧
      Ev.connectCall ∉ (asyncRun S env).events := by
  have hgen : ∃ m, generateOutcome S.llm env.buildGenResult =
      .error (.llmError m) := by
    unfold generateOutcome
    by_cases hp : (pyLower S.llm.provider = "openai" ∨
        pyLower S.llm.provider = "anthropic" ∨
        pyLower S.llm.provider = "google" ∨
        pyLower S.llm.provider = "gemini" ∨
        pyLower S.llm.provider = "google-genai")
    · rw [if_pos hp, hkey]
      exact ⟨_, rfl⟩
    · rw [if_neg hp]
      exact ⟨_, rfl⟩
  obtain ⟨m, hm⟩ := hgen
  unfold asyncRun
  rw [hcv]
  dsimp only
  rw [hm]
  dsimp only
  refine ⟨?_, ⟨m, ?_⟩, ?_⟩
  · simp [emitStatus, addEv]
  · rfl
  · simp [emitStatus, addEv]

/-- Witness for C7: the sample settings with the key removed. -/
theorem claim_C7_missing_key_witness :
    (asyncRun { sampleSettings with
        llm := { provider := "openai", model := "gpt-4o", api_key := none,
                 extra := [] } } envAllOk).events =
        [Ev.extractCall, Ev.generateCall] ∧
      (∃ m, (asyncRun { sampleSettings with
        llm := { provider := "openai", model := "gpt-4o", api_key := none,
                 extra := [] } } envAllOk).outcome =
          some (RunErr.llmError m)) ∧
      Ev.connectCall ∉ (asyncRun { sampleSettings with
        llm := { provider := "openai", model := "gpt-4o", api_key := none,
                 extra := [] } } envAllOk).events :=
  claim_C7_missing_key { sampleSettings with
    llm := { provider := "openai", model := "gpt-4o", api_key := none,
             extra := [] } } envAllOk "cv text" rfl rfl

end AIInterviewer
